import Mathlib

/-!
Verification development for `scripts/update_subscriptions.py`, a batch job
maintaining a line-oriented user registry, a blocked-users file, a master
proxy-server list with a quarantine list, and per-user base64 subscription
files.

The embedding is shallow: each Python function used by the verified claims is
translated into an executable Lean function over `List Char` strings.  File
and network I/O is made explicit: file contents are passed in and returned as
values, the clock (`get_iran_time`) is a parameter, and logging/backups (pure
observers in the script) are either returned as lists or omitted.  Python
`set` iteration order, which is unspecified, is modelled as insertion order;
the theorems below only depend on membership, never on that order.
-/

set_option maxRecDepth 10000
set_option linter.unusedVariables false
set_option linter.unnecessarySimpa false

/-- Strings are modelled as lists of unicode characters, matching Python. -/
abbrev Line := List Char

/-- Convert a Lean string literal to the `Line` representation. -/
def str (s : String) : Line := s.toList

/-- Python whitespace for `str.split()` / `str.strip()` (ASCII part;
the registry files are ASCII plus the blocked-marker glyph). -/
def pyIsSpace (c : Char) : Bool :=
  (c = ' ') || (c = '\t') || (c = '\n') || (c = '\r') ||
  (c = Char.ofNat 11) || (c = Char.ofNat 12)

/-- Python `str.strip()` with no arguments: drop leading whitespace. -/
def lstripWs (s : Line) : Line := s.dropWhile pyIsSpace

/-- Python `str.strip()`: drop leading and trailing whitespace. -/
def pyStrip (s : Line) : Line :=
  ((s.dropWhile pyIsSpace).reverse.dropWhile pyIsSpace).reverse

/-- Python `str.lstrip(chars)` for a single character: drop leading copies. -/
def lstripChar (c : Char) (s : Line) : Line := s.dropWhile (fun x => x = c)

/-- Python `sub in s` substring test. -/
def pyContains (s pat : Line) : Bool :=
  match s with
  | [] => pat.isEmpty
  | _ :: rest => pat.isPrefixOf s || pyContains rest pat

/-- Python `s.startswith(p)`. -/
def pyStartsWith (s p : Line) : Bool := p.isPrefixOf s

/-- Worker for `pySplitWs`: `acc` holds the current token reversed. -/
def splitWsAcc (acc : Line) : Line → List Line
  | [] => if acc = [] then [] else [acc.reverse]
  | c :: rest =>
    if pyIsSpace c then
      if acc = [] then splitWsAcc [] rest else acc.reverse :: splitWsAcc [] rest
    else splitWsAcc (c :: acc) rest

/-- Python `str.split()` with no arguments: whitespace tokenisation,
empty tokens never produced. -/
def pySplitWs (s : Line) : List Line := splitWsAcc [] s

/-- Worker for splitting on a single-character separator, Python
`str.split(sep)` semantics (empty pieces kept). -/
def splitCharAcc (sep : Char) (acc : Line) : Line → List Line
  | [] => [acc.reverse]
  | c :: rest =>
    if c = sep then acc.reverse :: splitCharAcc sep [] rest
    else splitCharAcc sep (c :: acc) rest

/-- Python `s.split(sep)` for a one-character separator. -/
def pySplitChar (sep : Char) (s : Line) : List Line := splitCharAcc sep [] s

/-- Worker for multi-character `str.split(sep)`; `fuel` bounds recursion by
the input length so the definition stays structural and kernel-reducible. -/
def splitStrGo (sep : Line) (acc : Line) : Nat → Line → List Line
  | 0, s => [acc.reverse ++ s]
  | _ + 1, [] => [acc.reverse]
  | fuel + 1, c :: rest =>
    if sep.isPrefixOf (c :: rest) then
      acc.reverse :: splitStrGo sep [] fuel ((c :: rest).drop sep.length)
    else splitStrGo sep (c :: acc) fuel rest

/-- Python `s.split(sep)` for a non-empty separator string. -/
def pySplitStr (sep s : Line) : List Line :=
  if sep = [] then [s] else splitStrGo sep [] s.length s

/-- Python `s.split(sep)[0]`: the text before the first separator occurrence
(the whole string when the separator is absent). -/
def beforeFirst (sep s : Line) : Line := (pySplitStr sep s).headD s

/-- Worker for `pyReplace`, fuel-bounded like `splitStrGo`. -/
def replaceGo (old new : Line) : Nat → Line → Line
  | 0, s => s
  | _ + 1, [] => []
  | fuel + 1, c :: rest =>
    if old.isPrefixOf (c :: rest) then
      new ++ replaceGo old new fuel ((c :: rest).drop old.length)
    else c :: replaceGo old new fuel rest

/-- Python `s.replace(old, new)` for a non-empty `old`. -/
def pyReplace (s old new : Line) : Line :=
  if old = [] then s else replaceGo old new s.length s

/-- Python `sep.join(parts)`. -/
def pyJoin (sep : Line) : List Line → Line
  | [] => []
  | [p] => p
  | p :: rest => p ++ sep ++ pyJoin sep rest

/-- Collapse internal whitespace: Python `' '.join(s.split())`. -/
def normalizeSpaces (s : Line) : Line := pyJoin (str (" ")) (pySplitWs s)

/-- Python `s.rsplit(sep, 2)` for a one-character separator: split at the
last two separator occurrences at most. -/
def pyRsplit2 (sep : Char) (s : Line) : List Line :=
  let parts := pySplitChar sep s
  if parts.length ≤ 3 then parts
  else
    [pyJoin [sep] (parts.take (parts.length - 2)),
     parts.getD (parts.length - 2) [], parts.getD (parts.length - 1) []]

/-- ASCII lower-casing, Python `str.lower()` on the ASCII range (the inputs
handled by the script are ASCII URIs and directive tokens). -/
def asciiLowerChar (c : Char) : Char :=
  if 'A' ≤ c ∧ c ≤ 'Z' then Char.ofNat (c.toNat + 32) else c

/-- Lower-case a string (ASCII range). -/
def pyLower (s : Line) : Line := s.map asciiLowerChar

/-- Decimal digit test, `\d` of the script's regexes (ASCII digits). -/
def isDigitChar (c : Char) : Bool := ('0' ≤ c) && (c ≤ '9')

/-- Value of one ASCII digit character. -/
def charToDigit (c : Char) : Nat := c.toNat - 48

/-- Render one digit (0-9) as a character. -/
def digitChar (d : Nat) : Char :=
  (['0', '1', '2', '3', '4', '5', '6', '7', '8', '9']).getD d '0'

/-- Numeric value of a digit string (Python `int` on a digit-only string). -/
def digitsToNat (s : Line) : Nat := s.foldl (fun a c => a * 10 + charToDigit c) 0

/-- Python `int(s)`: optional surrounding whitespace and sign, else digits
only; `none` models `ValueError`. -/
def pyInt (s : Line) : Option Int :=
  let t := pyStrip s
  let core : Line × Bool :=
    match t with
    | '-' :: rest => (rest, true)
    | '+' :: rest => (rest, false)
    | _ => (t, false)
  if core.1 = [] then none
  else if core.1.all isDigitChar then
    some (if core.2 then -(digitsToNat core.1 : Int) else (digitsToNat core.1 : Int))
  else none

/-- Render a natural number in decimal (no padding). -/
def natToDigits (n : Nat) : Line :=
  (Nat.toDigits 10 n).map (fun c => c)

/-- Zero-pad a natural to two digits, `strftime` `%H` / `%M` / `%m` / `%d`. -/
def pad2 (n : Nat) : Line := [digitChar (n / 10 % 10), digitChar (n % 10)]

/-- Zero-pad a natural to four digits, `strftime` `%Y` (years ≤ 9999). -/
def pad4 (n : Nat) : Line :=
  [digitChar (n / 1000 % 10), digitChar (n / 100 % 10),
   digitChar (n / 10 % 10), digitChar (n % 10)]

/-- First element of a list with default, Python `xs[0] if xs else d`. -/
def headOr (xs : List Line) (d : Line) : Line := xs.headD d

/-- Membership for accumulated username sets (Python `set`), kept as an
insertion-ordered duplicate-free list; only membership is ever used. -/
def memL (u : Line) (s : List Line) : Bool := s.contains u

/-- Python `set.add`: append when absent. -/
def addL (u : Line) (s : List Line) : List Line :=
  if memL u s then s else s ++ [u]

example : pyStrip (str ("  a b  ")) = str ("a b") := by decide
example : pySplitWs (str (" a  bc ")) = [str ("a"), str ("bc")] := by decide
example : pySplitStr (str ("---")) (str ("x ---b y")) = [str ("x "), str ("b y")] := by decide
example : pyReplace (str ("a---ba")) (str ("---b")) [] = str ("aa") := by decide
example : pyContains (str ("xx---es")) (str ("---es")) = true := by decide
example : pyRsplit2 '|' (str ("a|b|c|d")) = [str ("a|b"), str ("c"), str ("d")] := by decide
example : pyInt (str (" 42 ")) = some 42 := by decide
example : pyInt (str ("4a")) = none := by decide
example : pad2 7 = str ("07") := by decide
example : pyLower (str ("VLess://A")) = str ("vless://a") := by decide

/-- Wall-clock datetime (minute precision) in the script's single timezone
(`Asia/Tehran`); `pytz.localize` never converts between zones here, so a
naive civil datetime is the faithful model.  Python's `datetime` bounds the
year to 1..9999 and raises `OverflowError` outside; this model is unbounded,
and the theorems that depend on the bound carry it as a hypothesis. -/
structure DT where
  year : Nat
  month : Nat
  day : Nat
  hour : Nat
  minute : Nat
deriving DecidableEq, Repr

/-- Gregorian leap-year test. -/
def isLeap (y : Nat) : Bool := (y % 4 = 0 && y % 100 ≠ 0) || y % 400 = 0

/-- Days in a month of a given year. -/
def daysInMonth (y m : Nat) : Nat :=
  if m = 2 then (if isLeap y then 29 else 28)
  else if m = 4 ∨ m = 6 ∨ m = 9 ∨ m = 11 then 30
  else 31

/-- A datetime lies in Python's `datetime` domain. -/
def dtValid (t : DT) : Prop :=
  1 ≤ t.year ∧ 1 ≤ t.month ∧ t.month ≤ 12 ∧ 1 ≤ t.day ∧
  t.day ≤ daysInMonth t.year t.month ∧ t.hour ≤ 23 ∧ t.minute ≤ 59

instance (t : DT) : Decidable (dtValid t) := by unfold dtValid; infer_instance

/-- Rata-die style day number of a civil date (Hinnant's algorithm with floor
division); used for date differences. -/
def daysFromCivil (y m d : Int) : Int :=
  let y' : Int := if m ≤ 2 then y - 1 else y
  let era : Int := Int.fdiv y' 400
  let yoe : Int := y' - era * 400
  let mp : Int := Int.fmod (m + 9) 12
  let doy : Int := Int.fdiv (153 * mp + 2) 5 + d - 1
  let doe : Int := yoe * 365 + Int.fdiv yoe 4 - Int.fdiv yoe 100 + doy
  era * 146097 + doe - 719468

/-- Total minutes of a datetime on the day-number scale. -/
def dtMinutes (t : DT) : Int :=
  daysFromCivil t.year t.month t.day * 1440 + (t.hour * 60 + t.minute : Nat)

/-- Date-only triple. -/
def dtDate (t : DT) : Nat × Nat × Nat := (t.year, t.month, t.day)

/-- Model of `a.date() == b.date()`. -/
def sameDate (a b : DT) : Bool := decide (dtDate a = dtDate b)

/-- Civil successor date. -/
def nextDay (t : DT) : DT :=
  if t.day < daysInMonth t.year t.month then { t with day := t.day + 1 }
  else if t.month < 12 then { t with month := t.month + 1, day := 1 }
  else { year := t.year + 1, month := 1, day := 1, hour := t.hour, minute := t.minute }

/-- Add `n` civil days (Python `timedelta(days=n)` on the date part). -/
def addDays (n : Nat) (t : DT) : DT := Nat.rec t (fun _ acc => nextDay acc) n

/-- Model of `(t + timedelta(hours=n)).date()` together with the final wall time is not
needed by the script; it only needs the resulting *date*, so we advance the
date by however many midnights the hour delta crosses. -/
def dateAfterHours (n : Nat) (t : DT) : DT :=
  addDays ((t.hour * 60 + t.minute + n * 60) / 1440) t

/-- Model of `datetime.combine(date_of, time(h, mi))`. -/
def combineDT (dateOf : DT) (h mi : Nat) : DT :=
  { year := dateOf.year, month := dateOf.month, day := dateOf.day, hour := h, minute := mi }

/-- Injective monotone encoding of the civil fields (each field stays below
its radix on the `datetime` domain), so `≤` on keys is the lexicographic
field order used by Python's `datetime` comparison. -/
def dtKey (t : DT) : Nat :=
  (((t.year * 16 + t.month) * 64 + t.day) * 32 + t.hour) * 64 + t.minute

/-- Datetime comparison (`<=` on `datetime`). -/
def dtLE (a b : DT) : Bool := dtKey a ≤ dtKey b

/-- Model of `strftime('%Y-%m-%d')`. -/
def fmtDate (t : DT) : Line := pad4 t.year ++ [ '-' ] ++ pad2 t.month ++ [ '-' ] ++ pad2 t.day

/-- Model of `strftime('%H:%M')`. -/
def fmtHM (t : DT) : Line := pad2 t.hour ++ [ ':' ] ++ pad2 t.minute

/-- Model of `strftime('%Y-%m-%d %H:%M')`. -/
def fmtFull (t : DT) : Line := fmtDate t ++ [ ' ' ] ++ fmtHM t

example : fmtFull ⟨2024, 1, 2, 9, 5⟩ = str ("2024-01-02 09:05") := by decide
example : addDays 30 ⟨2024, 2, 1, 0, 0⟩ = ⟨2024, 3, 2, 0, 0⟩ := by decide
example : dateAfterHours 15 ⟨2024, 12, 31, 23, 0⟩ = ⟨2025, 1, 1, 23, 0⟩ := by decide
example : dtLE ⟨2024, 1, 1, 23, 0⟩ ⟨2024, 1, 2, 10, 0⟩ = true := by decide
example : daysFromCivil 2024 3 1 - daysFromCivil 2024 2 1 = 29 := by decide

/-- Maximal leading run of ASCII digits and the remainder. -/
def takeDigits (s : Line) : Line × Line := (s.takeWhile isDigitChar, s.dropWhile isDigitChar)

/-- Regex fragment `\d{1,2}` followed by a required character `c` (greedy,
with the backtracking a real engine would do): succeeds exactly when the
leading digit run has length 1 or 2 and is followed by `c`. -/
def digits12Then (c : Char) (s : Line) : Option (Line × Line) :=
  match takeDigits s with
  | (ds, rest) =>
    if (ds.length = 1 ∨ ds.length = 2) then
      match rest with
      | c' :: rest' => if c' = c then some (ds, rest') else none
      | [] => none
    else none

/-- Regex fragment `(\d{1,2}:\d{2})` (as in the two `check_expiry_datetime`
patterns), greedy on the hour width with backtracking; returns the matched
text and the remainder. -/
def matchHourMin : Line → Option (Line × Line)
  | a :: b :: c :: d :: e :: rest =>
    if isDigitChar a && isDigitChar b && (c = ':') && isDigitChar d && isDigitChar e then
      some ([a, b, c, d, e], rest)
    else if isDigitChar a && (b = ':') && isDigitChar c && isDigitChar d then
      some ([a, b, c, d], e :: rest)
    else none
  | [a, b, c, d] =>
    if isDigitChar a && (b = ':') && isDigitChar c && isDigitChar d then
      some ([a, b, c, d], ([] : Line))
    else none
  | _ => none

/-- Match attempt, at the current position, of the first
`check_expiry_datetime` pattern `(\d{4}-\d{2}-\d{2} \d{1,2}:\d{2}) expires`;
returns the captured group. -/
def matchP1At (s : Line) : Option Line :=
  match s with
  | y1 :: y2 :: y3 :: y4 :: c1 :: m1 :: m2 :: c2 :: d1 :: d2 :: c3 :: rest =>
    if isDigitChar y1 && isDigitChar y2 && isDigitChar y3 && isDigitChar y4 &&
       (c1 = '-') && isDigitChar m1 && isDigitChar m2 && (c2 = '-') &&
       isDigitChar d1 && isDigitChar d2 && (c3 = ' ') then
      match matchHourMin rest with
      | some (hm, rest2) =>
        if (str (" expires")).isPrefixOf rest2 then
          some ([y1, y2, y3, y4, c1, m1, m2, c2, d1, d2, c3] ++ hm)
        else none
      | none => none
    else none
  | _ => none

/-- Model of `re.search` for the first pattern: first matching position wins. -/
def searchP1 : Line → Option Line
  | [] => none
  | c :: rest =>
    match matchP1At (c :: rest) with
    | some g => some g
    | none => searchP1 rest

/-- Match attempt of the second pattern `(\d{1,2}:\d{2}) expires today`. -/
def matchP2At (s : Line) : Option Line :=
  match matchHourMin s with
  | some (g, rest) => if (str (" expires today")).isPrefixOf rest then some g else none
  | none => none

/-- Model of `re.search` for the second pattern. -/
def searchP2 : Line → Option Line
  | [] => none
  | c :: rest =>
    match matchP2At (c :: rest) with
    | some g => some g
    | none => searchP2 rest

/-- Model of `datetime.strptime(s, '%Y-%m-%d %H:%M')` followed by localisation, for
strings of the shape produced by the first search pattern (the only shape
the script ever feeds it): digit-range checks are those of CPython's
`_strptime` regex, and the constructor's calendar validation is applied.
`none` models `ValueError`. -/
def strptimeYmdHM (s : Line) : Option DT :=
  match s with
  | y1 :: y2 :: y3 :: y4 :: c1 :: m1 :: m2 :: c2 :: d1 :: d2 :: c3 :: rest =>
    if isDigitChar y1 && isDigitChar y2 && isDigitChar y3 && isDigitChar y4 &&
       (c1 = '-') && isDigitChar m1 && isDigitChar m2 && (c2 = '-') &&
       isDigitChar d1 && isDigitChar d2 && (c3 = ' ') then
      let y := digitsToNat [y1, y2, y3, y4]
      let m := digitsToNat [m1, m2]
      let d := digitsToNat [d1, d2]
      let hm : Option (Nat × Nat) :=
        match rest with
        | [a, b, c, d', e] =>
          if isDigitChar a && isDigitChar b && (c = ':') && isDigitChar d' && isDigitChar e then
            some (digitsToNat [a, b], digitsToNat [d', e])
          else none
        | [a, b, c, d'] =>
          if isDigitChar a && (b = ':') && isDigitChar c && isDigitChar d' then
            some (digitsToNat [a], digitsToNat [c, d'])
          else none
        | _ => none
      match hm with
      | some (h, mi) =>
        if 1 ≤ y ∧ 1 ≤ m ∧ m ≤ 12 ∧ 1 ≤ d ∧ d ≤ daysInMonth y m ∧ h ≤ 23 ∧ mi ≤ 59 then
          some ⟨y, m, d, h, mi⟩
        else none
      | none => none
    else none
  | _ => none

/-- Model of `check_expiry_datetime(user_line)` with the evaluation clock explicit:
search the two patterns in order; on a match parse the captured timestamp
(via `int` pairs in the "expires today" branch, else `strptime`), treat
parse failures as `continue`, and report expired exactly when the target is
not in the future. -/
def checkExpiryDatetime (userLine : Line) (now : DT) : Bool × Option DT :=
  let todayBranch : Line → Option DT := fun ds =>
    match pySplitChar ':' ds with
    | [p1, p2] =>
      match pyInt p1, pyInt p2 with
      | some h, some mi =>
        if 0 ≤ h ∧ h ≤ 23 ∧ 0 ≤ mi ∧ mi ≤ 59 then
          some (combineDT now h.toNat mi.toNat)
        else none
      | _, _ => none
    | _ => none
  let tryGroup : Option Line → Option DT := fun g =>
    match g with
    | none => none
    | some ds =>
      let target :=
        if pyContains userLine (str ("expires today")) then todayBranch ds
        else strptimeYmdHM ds
      match target with
      | some t => if dtLE t now then some t else none
      | none => none
  match tryGroup (searchP1 userLine) with
  | some t => (true, some t)
  | none =>
    match tryGroup (searchP2 userLine) with
    | some t => (true, some t)
    | none => (false, none)

/-- Model of `format_expiry_datetime(target)` with the clock explicit (the non-empty
case; the script's `None` guard is handled by its callers). -/
def formatExpiryDatetime (target : DT) (now : DT) : Line :=
  if sameDate target now then fmtHM target ++ str (" expires today")
  else fmtFull target ++ str (" expires")

/-- Case-insensitive literal match of one regex alternative; returns the rest
of the input after the alternative. -/
def altPrefix (alt : Line) (s : Line) : Option Line :=
  if alt.isPrefixOf (pyLower (s.take alt.length)) ∧ alt.length ≤ s.length then
    some (s.drop alt.length)
  else none

/-- Try regex alternatives in order (as `days?|d` does); for the unit
alternations of `parse_relative_datetime` a longer alternative that matches
always leaves a letter next, so no continuation can resurrect a shorter one
and first-match-wins is exact. -/
def altsMatch (alts : List Line) (s : Line) : Option Line :=
  match alts with
  | [] => none
  | a :: rest =>
    match altPrefix a s with
    | some r => some r
    | none => altsMatch rest s

/-- Regex fragment `^(\d+)\s*(alt1|alt2|...)`: amount, optional whitespace,
unit; returns the amount and the rest after the unit. -/
def matchAmountUnit (alts : List Line) (s : Line) : Option (Nat × Line) :=
  match takeDigits s with
  | ([], _) => none
  | (ds, rest) =>
    match altsMatch alts (rest.dropWhile pyIsSpace) with
    | some r => some (digitsToNat ds, r)
    | none => none

/-- Regex fragment `\s+(\d{1,2}):(\d{1,2})` unanchored at the end (patterns
1 and 3 of `parse_relative_datetime`): at least one space, then hour (1-2
digits, greedy, must be followed by `:`), then minute = the first one or two
digits of the following run (trailing text permitted). -/
def matchTime12 (s : Line) : Option (Nat × Nat) :=
  match s with
  | c :: rest =>
    if pyIsSpace c then
      match digits12Then ':' (rest.dropWhile pyIsSpace) with
      | some (hds, afterColon) =>
        match takeDigits afterColon with
        | ([], _) => none
        | (ds, _) => some (digitsToNat hds, digitsToNat (ds.take 2))
      | none => none
    else none
  | [] => none

/-- Like `matchTime12` but the minute is `(\d{2})` exactly (pattern 5,
months). -/
def matchTime2 (s : Line) : Option (Nat × Nat) :=
  match s with
  | c :: rest =>
    if pyIsSpace c then
      match digits12Then ':' (rest.dropWhile pyIsSpace) with
      | some (hds, afterColon) =>
        match takeDigits afterColon with
        | (ds, _) => if 2 ≤ ds.length then some (digitsToNat hds, digitsToNat (ds.take 2)) else none
      | none => none
    else none
  | [] => none

/-- Unit alternatives of the eight patterns. -/
def altsDays : List Line := [str ("days"), str ("day"), str ("d")]

/-- Week alternatives. -/
def altsWeeks : List Line := [str ("weeks"), str ("week"), str ("w")]

/-- Month alternatives. -/
def altsMonths : List Line := [str ("months"), str ("month"), str ("m")]

/-- Hour alternatives. -/
def altsHours : List Line := [str ("hours"), str ("hour"), str ("h")]

/-- Model of `parse_relative_datetime(relative_str)` with the clock (`get_iran_time`)
an explicit `now`.  The eight regex patterns are tried in order with
`re.match` semantics (anchored at the start; `$`-anchored only where the
source pattern has `$`); an out-of-range time in patterns 1/3/5 is the
source's `continue`, an out-of-range time in pattern 0 returns `None`.
Python's `datetime` would raise `OverflowError` past year 9999 where this
model keeps counting; theorems depending on the bound state it explicitly. -/
def parseRelativeDatetime (relativeStr : Line) (now : DT) : Option DT :=
  if relativeStr = [] then none
  else
    let s := pyStrip relativeStr
    -- pattern 0: ^(\d{1,2}):(\d{1,2})$
    let p0 : Option (Option DT) :=
      match digits12Then ':' s with
      | some (hds, rest) =>
        match takeDigits rest with
        | (ds, tail) =>
          if (ds.length = 1 ∨ ds.length = 2) ∧ tail = [] then
            let h := digitsToNat hds
            let mi := digitsToNat ds
            if h ≤ 23 ∧ mi ≤ 59 then
              let tgt := combineDT now h mi
              some (some (if dtLE tgt now then combineDT (nextDay now) h mi else tgt))
            else some none
          else none
      | none => none
    match p0 with
    | some r => r
    | none =>
      -- patterns with a time of day (1: days, 3: weeks, 5: months)
      let withTime : List Line → Nat → (Line → Option (Nat × Nat)) → Option DT :=
        fun alts mult tparse =>
          match matchAmountUnit alts s with
          | some (amt, rest) =>
            match tparse rest with
            | some (h, mi) =>
              if h ≤ 23 ∧ mi ≤ 59 then some (combineDT (addDays (mult * amt) now) h mi)
              else none
            | none => none
          | none => none
      -- end-anchored patterns without a time (2: days, 4: weeks, 6: months)
      let noTime : List Line → Nat → Option DT :=
        fun alts mult =>
          match matchAmountUnit alts s with
          | some (amt, rest) =>
            if rest = [] then some (combineDT (addDays (mult * amt) now) 23 59) else none
          | none => none
      -- pattern 7: ^(\d+)\s*(hours?|h)$
      let hoursP : Option DT :=
        match matchAmountUnit altsHours s with
        | some (amt, rest) =>
          if rest = [] then some (combineDT (dateAfterHours amt now) 23 59) else none
        | none => none
      match withTime altsDays 1 matchTime12 with
      | some r => some r
      | none =>
        match noTime altsDays 1 with
        | some r => some r
        | none =>
          match withTime altsWeeks 7 matchTime12 with
          | some r => some r
          | none =>
            match noTime altsWeeks 7 with
            | some r => some r
            | none =>
              match withTime altsMonths 30 matchTime2 with
              | some r => some r
              | none =>
                match noTime altsMonths 30 with
                | some r => some r
                | none => hoursP

/-- Match attempt, at the current position, of the `strip_block_dates`
pattern `\s*\|\s*blocked\s+\d{4}-\d{2}-\d{2}`; returns the remainder after
a successful match. -/
def matchBlockTagAt (s : Line) : Option Line :=
  match s.dropWhile pyIsSpace with
  | '|' :: r2 =>
    let r3 := r2.dropWhile pyIsSpace
    if (str ("blocked")).isPrefixOf r3 then
      match r3.drop 7 with
      | c :: r4 =>
        if pyIsSpace c then
          match (c :: r4).dropWhile pyIsSpace with
          | a :: b :: c' :: d :: e :: f :: g :: h :: i :: j :: rest =>
            if isDigitChar a && isDigitChar b && isDigitChar c' && isDigitChar d &&
               (e = '-') && isDigitChar f && isDigitChar g && (h = '-') &&
               isDigitChar i && isDigitChar j then
              some rest
            else none
          | _ => none
        else none
      | [] => none
    else none
  | _ => none

/-- Worker for `re.sub` of the block-date tag: scan left to right, dropping
non-overlapping matches. -/
def subBlockTags : Nat → Line → Line
  | 0, s => s
  | _ + 1, [] => []
  | fuel + 1, c :: rest =>
    match matchBlockTagAt (c :: rest) with
    | some r => subBlockTags fuel r
    | none => c :: subBlockTags fuel rest

/-- Model of `strip_block_dates(note)`: remove every `"| blocked YYYY-MM-DD"` tag and
strip the result (empty input returned unchanged). -/
def stripBlockDates (note : Line) : Line :=
  if note = [] then note else pyStrip (subBlockTags note.length note)

example : parseRelativeDatetime (str ("23:00")) ⟨2024, 1, 1, 10, 0⟩ = some ⟨2024, 1, 1, 23, 0⟩ := by decide
example : parseRelativeDatetime (str ("09:00")) ⟨2024, 1, 1, 10, 0⟩ = some ⟨2024, 1, 2, 9, 0⟩ := by decide
example : parseRelativeDatetime (str ("2 Days 8:30")) ⟨2024, 1, 1, 10, 0⟩ = some ⟨2024, 1, 3, 8, 30⟩ := by decide
example : parseRelativeDatetime (str ("2 days")) ⟨2024, 1, 1, 10, 0⟩ = some ⟨2024, 1, 3, 23, 59⟩ := by decide
example : parseRelativeDatetime (str ("1 w")) ⟨2024, 1, 1, 10, 0⟩ = some ⟨2024, 1, 8, 23, 59⟩ := by decide
example : parseRelativeDatetime (str ("1 month")) ⟨2024, 1, 5, 10, 0⟩ = some ⟨2024, 2, 4, 23, 59⟩ := by decide
example : parseRelativeDatetime (str ("15 hours")) ⟨2024, 1, 1, 10, 0⟩ = some ⟨2024, 1, 2, 23, 59⟩ := by decide
example : parseRelativeDatetime (str ("5 min")) ⟨2024, 1, 1, 10, 0⟩ = none := by decide
example : parseRelativeDatetime (str ("25:00")) ⟨2024, 1, 1, 10, 0⟩ = none := by decide
example : parseRelativeDatetime (str ("1 day 99:99")) ⟨2024, 1, 1, 10, 0⟩ = none := by decide
example : checkExpiryDatetime (str ("u 2024-01-01 23:00 expires")) ⟨2024, 1, 2, 10, 0⟩ = (true, some ⟨2024, 1, 1, 23, 0⟩) := by decide
example : checkExpiryDatetime (str ("u 23:00 expires today")) ⟨2024, 1, 2, 10, 0⟩ = (false, none) := by decide
example : checkExpiryDatetime (str ("u 09:00 expires today")) ⟨2024, 1, 2, 10, 0⟩ = (true, some ⟨2024, 1, 2, 9, 0⟩) := by decide
example : stripBlockDates (str ("vip | blocked 2024-01-05")) = str ("vip") := by decide
example : formatExpiryDatetime ⟨2024, 1, 1, 23, 0⟩ ⟨2024, 1, 1, 10, 0⟩ = str ("23:00 expires today") := by decide
example : formatExpiryDatetime ⟨2024, 1, 3, 8, 30⟩ ⟨2024, 1, 1, 10, 0⟩ = str ("2024-01-03 08:30 expires") := by decide

/-- Model of `BLOCKED_SYMBOL` (one unicode character). -/
def blockedSym : Char := Char.ofNat 0x1F6AB

/-- The blocked marker as a string. -/
def blockedSymStr : Line := [blockedSym]

/-- Directive tokens of the source. -/
def tokB : Line := str ("---b")

/-- Unblock token. -/
def tokUB : Line := str ("---ub")

/-- Delete token. -/
def tokD : Line := str ("---d")

/-- Create token (`---m`). -/
def tokM : Line := str ("---m")

/-- Rename token. -/
def tokR : Line := str ("---r")

/-- Set-expiry token. -/
def tokES : Line := str ("---es")

/-- The bare `---` marker that starts every directive token. -/
def dashes3 : Line := str ("---")

/-- Model of `extract_username_from_line(user_line)`: strip the blocked glyph
everywhere, strip, cut any `#` note, then take the first whitespace token of
the text before `---` (or of the whole cleaned line). -/
def extractUsername (userLine : Line) : Line :=
  let cleanLine := pyStrip (pyReplace userLine blockedSymStr [])
  let cleanLine :=
    if pyContains cleanLine (str ("#")) then pyStrip (beforeFirst (str ("#")) cleanLine)
    else cleanLine
  if pyContains cleanLine dashes3 then
    headOr (pySplitWs (pyStrip (beforeFirst dashes3 cleanLine))) []
  else
    headOr (pySplitWs cleanLine) cleanLine

/-- Model of `extract_user_data_from_line(user_line)`: like the username extraction
but additionally cutting at `|`, and returning the tokens after the first
one joined by single spaces. -/
def extractUserData (userLine : Line) : Line :=
  let cleanLine := pyStrip (pyReplace userLine blockedSymStr [])
  let cleanLine :=
    if pyContains cleanLine (str ("#")) then pyStrip (beforeFirst (str ("#")) cleanLine)
    else cleanLine
  let cleanLine :=
    if pyContains cleanLine (str ("|")) then pyStrip (beforeFirst (str ("|")) cleanLine)
    else cleanLine
  let parts :=
    if pyContains cleanLine dashes3 then pySplitWs (pyStrip (beforeFirst dashes3 cleanLine))
    else pySplitWs cleanLine
  if 1 < parts.length then pyJoin (str (" ")) (parts.drop 1) else []

/-- Text after the first occurrence of a character (`s.split(c, 1)[1]`). -/
def afterFirstChar (sep : Char) : Line → Line
  | [] => []
  | c :: rest => if c = sep then rest else afterFirstChar sep rest

/-- Model of `extract_notes_from_line(user_line)`: the stripped text after the first
`#`, empty when there is none. -/
def extractNotes (userLine : Line) : Line :=
  if pyContains userLine (str ("#")) then pyStrip (afterFirstChar '#' userLine)
  else []

/-- Model of `remove_notes_from_line(user_line)`. -/
def removeNotes (userLine : Line) : Line :=
  if pyContains userLine (str ("#")) then pyStrip (beforeFirst (str ("#")) userLine)
  else pyStrip userLine

/-- Model of `move_user_to_top(users, username)`: the loop keeps the *last* line whose
extracted username matches (earlier matches are dropped) and moves it before
all non-matching lines; with no match the list is returned unchanged.  The
source guards the move with `if user_line:`, which is falsy both for `None`
(no match) and for a matching *empty* line, so an empty match also returns
the original list unchanged. -/
def moveUserToTop (users : List Line) (username : Line) : List Line :=
  let hits := users.filter (fun l => extractUsername l = username)
  let remaining := users.filter (fun l => ¬ (extractUsername l = username))
  match hits.getLast? with
  | some ul => if ul = [] then users else ul :: remaining
  | none => users

/-- Model of `generate_unique_username(base)`: probe `base`, `base1`, `base2`, … against
the usernames of the *on-disk* user list (the pre-pass file while
`process_user_commands` is running).  The source's unbounded `while` loop
always terminates because only finitely many names are taken; the probe is
bounded by one more than the number of existing names, which by pigeonhole
always suffices (the fallback branch is unreachable). -/
def generateUniqueUsername (diskUsers : List Line) (base : Line) : Line :=
  let existing := diskUsers.map extractUsername
  if ¬ (base ∈ existing) then base
  else
    let cand : Nat → Line := fun i => base ++ natToDigits i
    match (List.range (existing.length + 1)).findSome?
        (fun i => if ¬ (cand (i + 1) ∈ existing) then some (cand (i + 1)) else none) with
    | some u => u
    | none => cand (existing.length + 1)

example : extractUsername (str ("alice ---b")) = str ("alice") := by decide
example : extractUsername ((blockedSymStr) ++ str ("alice 5 #| blocked 2024-01-01")) = str ("alice") := by decide
example : extractUsername (str ("---m bob")) = [] := by decide
example : extractUserData (str ("alice 10:00 expires today x ---es 5d #n")) = str ("10:00 expires today x") := by decide
example : extractNotes (str ("a #x #y")) = str ("x #y") := by decide
example : removeNotes (str ("a b #x")) = str ("a b") := by decide
example : moveUserToTop [str ("a 1"), str ("b 2"), str ("c 3")] (str ("b")) = [str ("b 2"), str ("a 1"), str ("c 3")] := by decide
example : generateUniqueUsername [str ("bob"), str ("bob1"), str ("x")] (str ("bob")) = str ("bob2") := by decide
example : generateUniqueUsername [str ("x")] (str ("bob")) = str ("bob") := by decide

/-- Association-list insert with Python-`dict` semantics: overwriting keeps
the original position, a new key is appended. -/
def adictInsert {α : Type} (k : Line) (v : α) : List (Line × α) → List (Line × α)
  | [] => [(k, v)]
  | (k', v') :: rest => if k' = k then (k, v) :: rest else (k', v') :: adictInsert k v rest

/-- Association-list lookup (first match). -/
def adictLookup {α : Type} (k : Line) : List (Line × α) → Option α
  | [] => none
  | (k', v) :: rest => if k' = k then some v else adictLookup k rest

/-- Remove a key (first occurrence) from an association list. -/
def adictRemoveKey {α : Type} (k : Line) : List (Line × α) → List (Line × α)
  | [] => []
  | (k', v) :: rest => if k' = k then rest else (k', v) :: adictRemoveKey k rest

/-- Set union on insertion-ordered name lists. -/
def unionL (a b : List Line) : List Line := b.foldl (fun acc u => addL u acc) a

/-- Set difference on name lists. -/
def diffL (a b : List Line) : List Line := a.filter (fun u => ¬ b.contains u)

/-- Model of `get_blocked_users()` applied to the contents of `blocked_users.txt`:
strip each line, skip blanks and `#`-comments, collect extracted usernames. -/
def getBlockedUsers (fileLines : List Line) : List Line :=
  fileLines.foldl
    (fun acc l =>
      let l' := pyStrip l
      if l' = [] ∨ pyStartsWith l' (str ("#")) then acc
      else
        let u := extractUsername l'
        if u = [] then acc else addL u acc) []

/-- Model of `create_subscription_file(username)` on the modelled subscription
directory (username → file content): create an empty file when missing. -/
def createSubscriptionFile (u : Line) (subs : List (Line × Line)) : List (Line × Line) :=
  match adictLookup u subs with
  | some _ => subs
  | none => subs ++ [(u, [])]

/-- Model of `rename_subscription_file(old, new)`: when the old file exists and the
target name is taken, probe a fresh name against the on-disk user list; then
`os.rename` (which replaces any file already at the target).  Returns the
possibly-adjusted new username together with the directory. -/
def renameSubscriptionFile (diskUsers : List Line) (old new : Line)
    (subs : List (Line × Line)) : Line × List (Line × Line) :=
  match adictLookup old subs with
  | some content =>
    let new' :=
      match adictLookup new subs with
      | some _ => generateUniqueUsername diskUsers new
      | none => new
    (new', adictInsert new' content (adictRemoveKey old subs))
  | none => (new, subs)

/-- Accumulator state of the directive loop in `process_user_commands`. -/
structure PState where
  updatedUsers : List Line
  blockedU : List Line
  unblockedU : List Line
  deletedU : List Line
  newU : List Line
  renamedU : List (Line × Line)
  usersToTop : List Line
  subsFiles : List (Line × Line)
deriving DecidableEq, Repr

/-- The `f"{sym}{u} {data} {hashNotes}"` cascade shared by the block,
unblock, create and rename branches (the note part is passed already
`#`-prefixed, or empty). -/
def mkUserLine (sym u data hashNotes : Line) : Line :=
  if data ≠ [] ∧ hashNotes ≠ [] then sym ++ u ++ str (" ") ++ data ++ str (" ") ++ hashNotes
  else if data ≠ [] then sym ++ u ++ str (" ") ++ data
  else if hashNotes ≠ [] then sym ++ u ++ str (" ") ++ hashNotes
  else sym ++ u

/-- Sequential `str.replace(tok, '')` over a token list. -/
def stripTokens (toks : List Line) (s : Line) : Line :=
  toks.foldl (fun acc t => pyReplace acc t []) s

/-- Token-removal order used in the `---b` branch. -/
def stripTokensB (s : Line) : Line :=
  stripTokens [tokB, tokUB, tokD, tokR, tokM, tokES] s

/-- Token-removal order used in the `---m` branch. -/
def stripTokensM (s : Line) : Line :=
  stripTokens [tokM, tokB, tokUB, tokD, tokR, tokES] s

/-- One iteration of the directive loop of `process_user_commands` on line
`userLine` at position `idx`.  `diskUsers` is the raw on-disk list (what
`generate_unique_username` re-reads mid-pass), `usersAll` the pre-cleaned
in-memory list the loop ranges over; `is not user_line` on freshly-read
distinct string objects is positional exclusion. -/
def processUserLine (diskUsers usersAll : List Line) (now : DT) (idx : Nat)
    (st : PState) (userLine : Line) : PState :=
  if pyContains userLine tokB then
    let username := extractUsername userLine
    let cleanedLine := pyStrip (beforeFirst (str ("|")) (beforeFirst dashes3 userLine))
    let userData := extractUserData cleanedLine
    let rawNotes := extractNotes userLine
    let notes := normalizeSpaces (pyStrip (stripTokensB rawNotes))
    let dateNote := str ("| blocked ") ++ fmtDate now
    let notes :=
      if ¬ pyContains notes dateNote then
        if notes ≠ [] then notes ++ str (" ") ++ dateNote else dateNote
      else notes
    let hashNotes := if notes ≠ [] then str ("#") ++ notes else []
    { st with
      updatedUsers := st.updatedUsers ++ [mkUserLine blockedSymStr username userData hashNotes],
      blockedU := addL username st.blockedU,
      usersToTop := addL username st.usersToTop }
  else if pyContains userLine tokUB then
    let username := extractUsername userLine
    let userData := extractUserData userLine
    let rawNotes := extractNotes userLine
    let notes := normalizeSpaces (pyStrip (pyReplace (pyReplace (stripBlockDates rawNotes) tokUB []) tokUB []))
    let hashNotes := if notes ≠ [] then str ("#") ++ notes else []
    { st with
      updatedUsers := st.updatedUsers ++ [mkUserLine [] username userData hashNotes],
      unblockedU := addL username st.unblockedU,
      usersToTop := addL username st.usersToTop }
  else if pyContains userLine tokD then
    let username := extractUsername userLine
    { st with deletedU := addL username st.deletedU }
  else if pyContains userLine tokM then
    let commandPart := (pySplitStr tokM userLine).getD 1 []
    let notesPart :=
      if pyContains commandPart (str ("#")) then (pySplitStr (str ("#")) commandPart).getD 1 []
      else []
    let dataPart := pyStrip (beforeFirst (str ("#")) commandPart)
    let unameData : Line × Line :=
      if dataPart ≠ [] then
        let parts := pySplitWs dataPart
        (headOr parts [], if 1 < parts.length then pyJoin (str (" ")) (parts.drop 1) else [])
      else (extractUsername userLine, extractUserData userLine)
    let userData := unameData.2
    let notes := normalizeSpaces (pyStrip (stripTokensM (pyStrip notesPart)))
    let username :=
      if unameData.1 = [] then generateUniqueUsername diskUsers (str ("customer"))
      else unameData.1
    let existingUsernames := (usersAll.eraseIdx idx).map extractUsername
    let existingUpdated := st.updatedUsers.map extractUsername
    let renamedNew := st.renamedU.map Prod.snd
    let username :=
      if existingUpdated.contains username ∨ existingUsernames.contains username ∨
         renamedNew.contains username ∨ st.newU.contains username then
        generateUniqueUsername diskUsers username
      else username
    let hashNotes := if notes ≠ [] then str ("#") ++ notes else []
    { st with
      updatedUsers := st.updatedUsers ++ [mkUserLine [] username userData hashNotes],
      newU := addL username st.newU,
      subsFiles := createSubscriptionFile username st.subsFiles,
      usersToTop := addL username st.usersToTop }
  else if pyContains userLine tokR then
    let oldUsername := extractUsername userLine
    let userData := extractUserData userLine
    let notes0 := extractNotes userLine
    let commandPart := (pySplitStr tokR userLine).getD 1 []
    let commandPart :=
      if pyContains commandPart (str ("#")) then beforeFirst (str ("#")) commandPart
      else commandPart
    let newUsername :=
      if pyStrip commandPart ≠ [] then headOr (pySplitWs (pyStrip commandPart)) [] else []
    let notes1 :=
      if notes0 ≠ [] ∧ pyContains notes0 tokR then pyStrip (beforeFirst tokR notes0)
      else notes0
    let notes := normalizeSpaces notes1
    if newUsername ≠ [] ∧ newUsername ≠ oldUsername then
      if (st.renamedU.map Prod.snd).contains oldUsername then
        { st with updatedUsers := st.updatedUsers ++ [userLine] }
      else
        let existingUsernames := usersAll.map extractUsername
        let existingUpdated := st.updatedUsers.map extractUsername
        let renamedNew := st.renamedU.map Prod.snd
        let newUsername :=
          if existingUsernames.contains newUsername ∨ existingUpdated.contains newUsername ∨
             renamedNew.contains newUsername ∨ st.newU.contains newUsername then
            generateUniqueUsername diskUsers newUsername
          else newUsername
        let sym := if pyStartsWith userLine blockedSymStr then blockedSymStr else []
        let ren := renameSubscriptionFile diskUsers oldUsername newUsername st.subsFiles
        let actualNew := ren.1
        let hashNotes := if notes ≠ [] then str ("#") ++ notes else []
        { st with
          updatedUsers := st.updatedUsers ++ [mkUserLine sym actualNew userData hashNotes],
          renamedU := adictInsert oldUsername actualNew st.renamedU,
          usersToTop := addL actualNew (addL newUsername st.usersToTop),
          subsFiles := ren.2 }
    else { st with updatedUsers := st.updatedUsers ++ [userLine] }
  else if pyContains userLine tokES then
    let username := extractUsername userLine
    let notes := extractNotes userLine
    let st := { st with usersToTop := addL username st.usersToTop }
    let parts := pySplitStr tokES userLine
    if 1 < parts.length then
      let timePart := parts.getD 1 []
      let timePart :=
        if pyContains timePart (str ("#")) then beforeFirst (str ("#")) timePart else timePart
      let timePart := pyStrip timePart
      let userDataBefore := pyStrip (pyReplace (parts.getD 0 []) blockedSymStr [])
      let userDataParts := pySplitWs userDataBefore
      let existingData :=
        if userDataParts ≠ [] then
          let ed := pyJoin (str (" ")) (userDataParts.drop 1)
          if pyContains ed (str ("#")) then pyStrip (beforeFirst (str ("#")) ed) else ed
        else []
      match parseRelativeDatetime timePart now with
      | some target =>
        let formatted := formatExpiryDatetime target now
        let sym := if pyStartsWith userLine blockedSymStr then blockedSymStr else []
        let line :=
          if existingData ≠ [] ∧ notes ≠ [] then
            sym ++ username ++ str (" ") ++ formatted ++ str (" ") ++ existingData ++ str (" #") ++ notes
          else if existingData ≠ [] then
            sym ++ username ++ str (" ") ++ formatted ++ str (" ") ++ existingData
          else if notes ≠ [] then
            sym ++ username ++ str (" ") ++ formatted ++ str (" #") ++ notes
          else sym ++ username ++ str (" ") ++ formatted
        { st with updatedUsers := st.updatedUsers ++ [line] }
      | none => { st with updatedUsers := st.updatedUsers ++ [userLine] }
    else { st with updatedUsers := st.updatedUsers ++ [userLine] }
  else { st with updatedUsers := st.updatedUsers ++ [userLine] }

/-- The pre-clean step of `process_user_commands`: an un-blocked line whose
note still carries a stale `"| blocked …"` tag is rebuilt without it. -/
def precleanLine (l : Line) : Line :=
  if ¬ pyStartsWith l blockedSymStr ∧ pyContains l (str ("| blocked")) then
    let notesRaw := extractNotes l
    let cleaned := stripBlockDates notesRaw
    if cleaned ≠ notesRaw then
      let username := extractUsername l
      let userData := extractUserData l
      mkUserLine [] username userData (if cleaned ≠ [] then str ("#") ++ cleaned else [])
    else l
  else l

/-- The directive loop over the enumerated pre-cleaned lines. -/
def runUserLoop (diskUsers usersAll : List Line) (now : DT) :
    PState → List (Nat × Line) → PState
  | st, [] => st
  | st, (i, l) :: rest => runUserLoop diskUsers usersAll now (processUserLine diskUsers usersAll now i st l) rest

/-- Result of one `process_user_commands` pass. -/
structure PUCResult where
  finalUsers : List Line
  blockedFile : List Line
  subsFiles : List (Line × Line)
  blockedU : List Line
  unblockedU : List Line
  deletedU : List Line
  newU : List Line
  renamedU : List (Line × Line)
  allBlockedDead : List Line
deriving DecidableEq, Repr

/-- Worker for the blocked-file rebuild in `process_user_commands`: the
`blocked_lines_dict` of marked lines of the final registry, keyed by
username. -/
def buildBlockedDict (finalUsers : List Line) : List (Line × Line) :=
  finalUsers.foldl
    (fun d l =>
      if pyStartsWith l blockedSymStr then
        let entry := lstripWs (lstripChar blockedSym l)
        adictInsert (extractUsername entry) entry d
      else d) []

/-- Worker pulling freshly-blocked names to the front of the rebuilt
blocked file. -/
def pullBlocked (blockedU : List Line) (d : List (Line × Line)) :
    List Line × List (Line × Line) :=
  blockedU.foldl
    (fun (p : List Line × List (Line × Line)) u =>
      match adictLookup u p.2 with
      | some e => (p.1 ++ [e], adictRemoveKey u p.2)
      | none => p) ([], d)

/-- The rebuilt `blocked_users.txt` content: blocked-marked lines of the
final registry, freshly-blocked names first. -/
def orderedBlockedOf (blockedU finalUsers : List Line) : List Line :=
  let pulled := pullBlocked blockedU (buildBlockedDict finalUsers)
  pulled.1 ++ pulled.2.map Prod.snd

/-- Model of `process_user_commands()`.  `users0` is the loaded `user_list.txt`
(also what `generate_unique_username` re-reads from disk mid-pass, since the
list is only saved after the loop), `prevBlockedFile` the `blocked_users.txt`
contents on entry — which the source never reads before overwriting it —
and `subs0` the subscription directory.  The rebuilt blocked file lists the
marked lines of the final registry, freshly-blocked names first; the
`all_blocked` set the source then computes from the *just written* file is
returned as `allBlockedDead` and persisted nowhere, exactly as in the
source. -/
def processUserCommands (users0 : List Line) (now : DT)
    (prevBlockedFile : List Line) (subs0 : List (Line × Line)) : PUCResult :=
  let users := users0.map precleanLine
  let st0 : PState := ⟨[], [], [], [], [], [], [], subs0⟩
  let st := runUserLoop users0 users now st0 users.enum
  let finalUsers := st.usersToTop.foldl (fun fu u => moveUserToTop fu u) st.updatedUsers
  let orderedBlocked := orderedBlockedOf st.blockedU finalUsers
  let existingBlocked := getBlockedUsers orderedBlocked
  let allBlocked0 := if st.blockedU ≠ [] then unionL existingBlocked st.blockedU else existingBlocked
  let allBlocked1 := if st.unblockedU ≠ [] then diffL allBlocked0 st.unblockedU else allBlocked0
  let allBlocked2 := if st.deletedU ≠ [] then diffL allBlocked1 st.deletedU else allBlocked1
  let subs := st.subsFiles.filter (fun kv => ¬ st.deletedU.contains kv.1)
  { finalUsers := finalUsers, blockedFile := orderedBlocked, subsFiles := subs,
    blockedU := st.blockedU, unblockedU := st.unblockedU, deletedU := st.deletedU,
    newU := st.newU, renamedU := st.renamedU, allBlockedDead := allBlocked2 }

/-- Model of `check_expired_users()`: prepend the blocked glyph to every unmarked
line whose expiry has passed; when any expired, move them to the top and
overwrite `blocked_users.txt` with the union of the freshly-read blocked
names and the expired ones (username-only lines). -/
def checkExpiredUsers (users : List Line) (blockedFile : List Line) (now : DT) :
    List Line × List Line :=
  let step := users.foldl
    (fun (p : List Line × List Line) userLine =>
      let username := extractUsername userLine
      let r := checkExpiryDatetime userLine now
      if r.1 ∧ ¬ pyStartsWith userLine blockedSymStr then
        (p.1 ++ [blockedSymStr ++ userLine], p.2 ++ [username])
      else (p.1 ++ [userLine], p.2)) ([], [])
  if step.2 ≠ [] then
    let finalUsers := step.2.foldl (fun fu u => moveUserToTop fu u) step.1
    let allBlocked := unionL (getBlockedUsers blockedFile) step.2
    (finalUsers, allBlocked)
  else (step.1, blockedFile)

example :
    (processUserCommands [str ("alice ---b")] ⟨2024, 1, 1, 10, 0⟩ [] []).finalUsers =
      [blockedSymStr ++ str ("alice #| blocked 2024-01-01")] := by decide

example :
    (processUserCommands [str ("alice ---b")] ⟨2024, 1, 1, 10, 0⟩ [] []).blockedFile =
      [str ("alice #| blocked 2024-01-01")] := by decide

example :
    (processUserCommands [str ("bob"), str ("a ---m bob"), str ("b ---m bob")]
      ⟨2024, 1, 1, 10, 0⟩ [] []).finalUsers = [str ("bob1"), str ("bob")] := by decide

/-- UTF-8 bytes of one character. -/
def utf8Bytes (c : Char) : List Nat :=
  let n := c.toNat
  if n < 0x80 then [n]
  else if n < 0x800 then [0xC0 + n / 64, 0x80 + n % 64]
  else if n < 0x10000 then [0xE0 + n / 4096, 0x80 + n / 64 % 64, 0x80 + n % 64]
  else [0xF0 + n / 262144, 0x80 + n / 4096 % 64, 0x80 + n / 64 % 64, 0x80 + n % 64]

/-- Model of `s.encode('utf-8')`. -/
def utf8Encode (s : Line) : List Nat := s.foldr (fun c acc => utf8Bytes c ++ acc) []

/-- The base64 alphabet. -/
def b64Alphabet : Line := str ("ABCDEFGHIJKLMNOPQRSTUVWXYZabcdefghijklmnopqrstuvwxyz0123456789+/")

/-- One base64 output character. -/
def b64Char (n : Nat) : Char := b64Alphabet.getD n 'A'

/-- Model of `base64.b64encode` on a byte list (result as characters). -/
def b64Encode : List Nat → Line
  | [] => []
  | [a] => [b64Char (a / 4), b64Char (a % 4 * 16), '=', '=']
  | [a, b] => [b64Char (a / 4), b64Char (a % 4 * 16 + b / 16), b64Char (b % 16 * 4), '=']
  | a :: b :: c :: rest =>
    [b64Char (a / 4), b64Char (a % 4 * 16 + b / 16), b64Char (b % 16 * 4 + c / 64),
     b64Char (c % 64)] ++ b64Encode rest

/-- The decoy remark of `get_fake_servers()`. -/
def fakeRemark : Line := str ("اشتراک شما تمام شده است لطفا اشتراک خود را تمدید کنید")

/-- Model of `get_fake_servers()`. -/
def fakeServers : List Line :=
  [str ("vless://12345678-1234-1234-1234-123456789abc@127.0.0.1:443?encryption=none&security=tls&type=ws&path=%2F#") ++ fakeRemark]

/-- The base64 payload written into a subscription file:
`base64.b64encode('\n'.join(servers).encode('utf-8'))`. -/
def encodeSubscription (servers : List Line) : Line :=
  b64Encode (utf8Encode (pyJoin [Char.ofNat 10] servers))

/-- The publish step at the end of `update_all_subscriptions()`:
read the blocked names from `blocked_users.txt`, create a missing
subscription file for every username of the user list, then rewrite every
subscription file whose username belongs to the user list with the encoded
live list (or the decoy list when blocked), leaving all other files
untouched.  The directory is an association list filename-stem → content. -/
def publishSubscriptions (managedUsers blockedFileLines servers : List Line)
    (dir : List (Line × Line)) : List (Line × Line) :=
  let blockedUsers := getBlockedUsers blockedFileLines
  let dir1 := managedUsers.foldl
    (fun d ul =>
      let u := extractUsername ul
      match adictLookup u d with
      | some _ => d
      | none => d ++ [(u, [])]) dir
  let managedNames := managedUsers.map extractUsername
  dir1.map (fun kv =>
    if managedNames.contains kv.1 then
      (kv.1, encodeSubscription (if blockedUsers.contains kv.1 then fakeServers else servers))
    else kv)

/-- Model of `str.rstrip()`. -/
def rstripWs (s : Line) : Line := (s.reverse.dropWhile pyIsSpace).reverse

/-- Model of `process_blocked_users_commands()`: admin `---ub` / `---d` directives
written inside `blocked_users.txt` are applied to the user list, and the
blocked file is rewritten from the resulting registry's marked lines (after
a plain dedup rewrite when it held duplicate usernames).  Returns the new
user list, blocked file, and subscription directory. -/
def processBlockedUsersCommands (userList blockedFile : List Line)
    (subs : List (Line × Line)) : List Line × List Line × List (Line × Line) :=
  let raw0 := (blockedFile.filter (fun l => pyStrip l ≠ [])).map rstripWs
  let dd := raw0.foldl
    (fun d ln =>
      let u := extractUsername ln
      match adictLookup u d with
      | some prev =>
        if pyContains ln (str ("|")) ∧ ¬ pyContains prev (str ("|")) then adictInsert u ln d
        else d
      | none => adictInsert u ln d) []
  let raw := dd.map Prod.snd
  let fileAfterDedup := if raw.length ≠ raw0.length then raw else blockedFile
  if raw = [] then (userList, fileAfterDedup, subs)
  else
    let scanned := raw.foldl
      (fun (p : List (Line × Line) × List Line × Bool) line =>
        if pyContains line tokUB then
          let u := extractUsername line
          let note := extractNotes line
          if u ≠ [] then (adictInsert u note p.1, p.2.1, true) else p
        else if pyContains line tokD then
          let u := extractUsername line
          if u ≠ [] then (p.1, addL u p.2.1, true) else p
        else p) ([], [], false)
    let toUnblock := scanned.1
    let toDelete := scanned.2.1
    if ¬ scanned.2.2 then (userList, fileAfterDedup, subs)
    else
      let step := userList.foldl
        (fun (p : List Line × List Line) userLine =>
          let u := extractUsername userLine
          match adictLookup u toUnblock with
          | some newNoteRaw =>
            let base := lstripWs (lstripChar blockedSym userLine)
            let baseNoNote := removeNotes base
            let newNote := if newNoteRaw ≠ [] then stripBlockDates newNoteRaw else []
            let cleanLine :=
              if newNote ≠ [] then baseNoNote ++ str (" #") ++ newNote
              else
                let cleanedExisting := stripBlockDates (extractNotes base)
                if cleanedExisting ≠ [] then baseNoNote ++ str (" #") ++ cleanedExisting
                else baseNoNote
            (p.1 ++ [cleanLine], addL u p.2)
          | none =>
            if toDelete.contains u then (p.1, addL u p.2)
            else (p.1 ++ [userLine], p.2)) ([], [])
      let finalUsers := step.2.foldl (fun fu u => moveUserToTop fu u) step.1
      let newBlockList := finalUsers.foldl
        (fun acc l =>
          if pyStartsWith l blockedSymStr then
            let entry := lstripWs (lstripChar blockedSym l)
            let u := extractUsername entry
            if ¬ toDelete.contains u then acc ++ [entry] else acc
          else acc) []
      let subs' := subs.filter (fun kv => ¬ toDelete.contains kv.1)
      (finalUsers, newBlockList, subs')

/-- State of the text stores after a pass. -/
structure PassResult where
  users : List Line
  blockedFile : List Line
  subs : List (Line × Line)
deriving DecidableEq, Repr

/-- The `FAST_RUN` variant of `update_all_subscriptions()` (the fast pass
skips discovery, health checks and remark decoration): blocked-file
commands, then user commands, then expiry, then publish from the current
master list.  Backups and manual-change detection only observe or reorder
already-saved state and are modelled as the identity (no manual edits). -/
def fullPassFast (userList blockedFile : List Line) (subs : List (Line × Line))
    (servers : List Line) (now : DT) : PassResult :=
  let s1 := processBlockedUsersCommands userList blockedFile subs
  let r := processUserCommands s1.1 now s1.2.1 s1.2.2
  let s3 := checkExpiredUsers r.finalUsers r.blockedFile now
  let dir := publishSubscriptions s3.1 s3.2 servers r.subsFiles
  { users := s3.1, blockedFile := s3.2, subs := dir }

example :
    (fullPassFast [str ("alice ---b")] [] [] [str ("vless://u@h:443?a=1#X")]
      ⟨2024, 1, 1, 10, 0⟩).users = [blockedSymStr ++ str ("alice #| blocked 2024-01-01")] := by decide

example :
    adictLookup (str ("alice"))
      (fullPassFast [str ("alice ---b")] [] [] [str ("vless://u@h:443?a=1#X")]
        ⟨2024, 1, 1, 10, 0⟩).subs = some (encodeSubscription fakeServers) := by decide

/-- ASCII letter test. -/
def isAlphaChar (c : Char) : Bool :=
  (('a' ≤ c) && (c ≤ 'z')) || (('A' ≤ c) && (c ≤ 'Z'))

/-- Characters allowed after the first one in a URL scheme. -/
def isSchemeRestChar (c : Char) : Bool :=
  isAlphaChar c || isDigitChar c || (c = '+') || (c = '-') || (c = '.')

/-- Components returned by `urllib.parse.urlparse` (the fields the script
uses; `params` and `fragment` are empty for its inputs, which are always
pre-split at `#`). -/
structure UrlParts where
  scheme : Line
  netloc : Line
  path : Line
  query : Line
deriving DecidableEq, Repr

/-- Model of `urlparse(url)` for fragment-free inputs: optional scheme (lower-cased),
`//netloc` delimited by `/`, `?` or `#`, then path up to the first `?`, then
the query. -/
def schemeOk : Line → Bool
  | c :: cs => isAlphaChar c && cs.all isSchemeRestChar
  | [] => false

/-- Model of `urlparse(url)` body: see the doc comment above `UrlParts`. -/
def urlparseLite (url : Line) : UrlParts :=
  let beforeColon := url.takeWhile (fun c => ¬ (c = ':'))
  let schemeRest : Line × Line :=
    if beforeColon.length < url.length ∧ schemeOk beforeColon then
      (pyLower beforeColon, url.drop (beforeColon.length + 1))
    else ([], url)
  let netlocRest : Line × Line :=
    if (str ("//")).isPrefixOf schemeRest.2 then
      let r := schemeRest.2.drop 2
      (r.takeWhile (fun c => ¬ (c = '/' ∨ c = '?' ∨ c = '#')),
       r.dropWhile (fun c => ¬ (c = '/' ∨ c = '?' ∨ c = '#')))
    else ([], schemeRest.2)
  let path := netlocRest.2.takeWhile (fun c => ¬ (c = '?'))
  let query :=
    if pyContains netlocRest.2 (str ("?")) then afterFirstChar '?' netlocRest.2 else []
  ⟨schemeRest.1, netlocRest.1, path, query⟩

/-- Model of `urlunparse((scheme, netloc, path, '', query, ''))`. -/
def urlunparseLite (scheme netloc path query : Line) : Line :=
  let u0 := path
  let u1 :=
    if netloc ≠ [] ∨ (str ("//")).isPrefixOf u0 then
      (str ("//")) ++ netloc ++
        (if u0 ≠ [] ∧ ¬ ((str ("/")).isPrefixOf u0) then (str ("/")) ++ u0 else u0)
    else u0
  let u2 := if scheme ≠ [] then scheme ++ (str (":")) ++ u1 else u1
  if query ≠ [] then u2 ++ (str ("?")) ++ query else u2

/-- Hexadecimal digit value. -/
def hexVal (c : Char) : Option Nat :=
  if isDigitChar c then some (charToDigit c)
  else if ('a' ≤ c) && (c ≤ 'f') then some (c.toNat - 87)
  else if ('A' ≤ c) && (c ≤ 'F') then some (c.toNat - 55)
  else none

/-- Upper-case hex digit (as `urllib.parse.quote` emits). -/
def hexDigitUpper (n : Nat) : Char :=
  (['0', '1', '2', '3', '4', '5', '6', '7', '8', '9', 'A', 'B', 'C', 'D', 'E', 'F']).getD n '0'

/-- Worker for UTF-8 decoding with `errors='replace'`: an invalid sequence
yields one U+FFFD and resynchronises at the next byte (the script's query
strings are ASCII, where this is exact); fuel keeps the recursion
structural. -/
def utf8ReplaceGo : Nat → List Nat → Line
  | 0, _ => []
  | _ + 1, [] => []
  | fuel + 1, b :: rest =>
    if b < 0x80 then Char.ofNat b :: utf8ReplaceGo fuel rest
    else if 0xC2 ≤ b ∧ b ≤ 0xDF then
      match rest with
      | b2 :: rest2 =>
        if 0x80 ≤ b2 ∧ b2 ≤ 0xBF then
          Char.ofNat ((b - 0xC0) * 64 + (b2 - 0x80)) :: utf8ReplaceGo fuel rest2
        else Char.ofNat 0xFFFD :: utf8ReplaceGo fuel rest
      | [] => [Char.ofNat 0xFFFD]
    else if 0xE0 ≤ b ∧ b ≤ 0xEF then
      match rest with
      | b2 :: b3 :: rest2 =>
        if (0x80 ≤ b2 ∧ b2 ≤ 0xBF) ∧ (0x80 ≤ b3 ∧ b3 ≤ 0xBF) ∧
           (b = 0xE0 → 0xA0 ≤ b2) ∧ (b = 0xED → b2 ≤ 0x9F) then
          Char.ofNat ((b - 0xE0) * 4096 + (b2 - 0x80) * 64 + (b3 - 0x80)) :: utf8ReplaceGo fuel rest2
        else Char.ofNat 0xFFFD :: utf8ReplaceGo fuel rest
      | _ => [Char.ofNat 0xFFFD]
    else if 0xF0 ≤ b ∧ b ≤ 0xF4 then
      match rest with
      | b2 :: b3 :: b4 :: rest2 =>
        if (0x80 ≤ b2 ∧ b2 ≤ 0xBF) ∧ (0x80 ≤ b3 ∧ b3 ≤ 0xBF) ∧ (0x80 ≤ b4 ∧ b4 ≤ 0xBF) ∧
           (b = 0xF0 → 0x90 ≤ b2) ∧ (b = 0xF4 → b2 ≤ 0x8F) then
          Char.ofNat ((b - 0xF0) * 262144 + (b2 - 0x80) * 4096 + (b3 - 0x80) * 64 + (b4 - 0x80))
            :: utf8ReplaceGo fuel rest2
        else Char.ofNat 0xFFFD :: utf8ReplaceGo fuel rest
      | _ => [Char.ofNat 0xFFFD]
    else Char.ofNat 0xFFFD :: utf8ReplaceGo fuel rest

/-- UTF-8 decoding with `errors='replace'`. -/
def utf8DecodeReplace (bs : List Nat) : Line := utf8ReplaceGo bs.length bs

/-- Strict UTF-8 decoding (`bytes.decode('utf-8')`); `none` models
`UnicodeDecodeError`. -/
def utf8DecodeStrict : List Nat → Option Line
  | [] => some []
  | b :: rest =>
    if b < 0x80 then (utf8DecodeStrict rest).map (fun l => Char.ofNat b :: l)
    else if 0xC2 ≤ b ∧ b ≤ 0xDF then
      match rest with
      | b2 :: rest2 =>
        if 0x80 ≤ b2 ∧ b2 ≤ 0xBF then
          (utf8DecodeStrict rest2).map (fun l => Char.ofNat ((b - 0xC0) * 64 + (b2 - 0x80)) :: l)
        else none
      | [] => none
    else if 0xE0 ≤ b ∧ b ≤ 0xEF then
      match rest with
      | b2 :: b3 :: rest2 =>
        if (0x80 ≤ b2 ∧ b2 ≤ 0xBF) ∧ (0x80 ≤ b3 ∧ b3 ≤ 0xBF) ∧
           (b = 0xE0 → 0xA0 ≤ b2) ∧ (b = 0xED → b2 ≤ 0x9F) then
          (utf8DecodeStrict rest2).map
            (fun l => Char.ofNat ((b - 0xE0) * 4096 + (b2 - 0x80) * 64 + (b3 - 0x80)) :: l)
        else none
      | _ => none
    else if 0xF0 ≤ b ∧ b ≤ 0xF4 then
      match rest with
      | b2 :: b3 :: b4 :: rest2 =>
        if (0x80 ≤ b2 ∧ b2 ≤ 0xBF) ∧ (0x80 ≤ b3 ∧ b3 ≤ 0xBF) ∧ (0x80 ≤ b4 ∧ b4 ≤ 0xBF) ∧
           (b = 0xF0 → 0x90 ≤ b2) ∧ (b = 0xF4 → b2 ≤ 0x8F) then
          (utf8DecodeStrict rest2).map
            (fun l => Char.ofNat ((b - 0xF0) * 262144 + (b2 - 0x80) * 4096 + (b3 - 0x80) * 64 + (b4 - 0x80)) :: l)
        else none
      | _ => none
    else none

/-- Worker for the byte stream of `urllib.parse.unquote_plus`: `+` becomes a
space, `%hh` becomes a byte, a malformed `%` stays literal, other characters
contribute their UTF-8 bytes. -/
def unquoteGo : Nat → Line → List Nat
  | 0, _ => []
  | _ + 1, [] => []
  | fuel + 1, '+' :: rest => 32 :: unquoteGo fuel rest
  | fuel + 1, '%' :: rest =>
    (match rest with
     | h1 :: h2 :: rest2 =>
       match hexVal h1, hexVal h2 with
       | some a, some b => (a * 16 + b) :: unquoteGo fuel rest2
       | _, _ => 37 :: unquoteGo fuel rest
     | _ => 37 :: unquoteGo fuel rest)
  | fuel + 1, c :: rest => utf8Bytes c ++ unquoteGo fuel rest

/-- Byte stream of `unquote_plus`. -/
def unquotePlusBytes (s : Line) : List Nat := unquoteGo s.length s

/-- Model of `unquote_plus(s)` (UTF-8, `errors='replace'`). -/
def unquotePlus (s : Line) : Line := utf8DecodeReplace (unquotePlusBytes s)

/-- Bytes that `quote_plus` leaves unescaped. -/
def quoteSafeByte (b : Nat) : Bool :=
  (65 ≤ b ∧ b ≤ 90) || (97 ≤ b ∧ b ≤ 122) || (48 ≤ b ∧ b ≤ 57) ||
  (b = 95) || (b = 46) || (b = 45) || (b = 126)

/-- Model of `quote_plus(s, safe='')`. -/
def quotePlus (s : Line) : Line :=
  (utf8Encode s).foldr
    (fun b acc =>
      (if quoteSafeByte b then [Char.ofNat b]
       else if b = 32 then ['+']
       else ['%', hexDigitUpper (b / 16), hexDigitUpper (b % 16)]) ++ acc) []

/-- Model of `parse_qsl(query, keep_blank_values=True)`: split on `&`, skip empty
fields, split each field at the first `=` (a missing `=` keeps the name with
a blank value), percent-decode both sides. -/
def parseQsl (qs : Line) : List (Line × Line) :=
  (pySplitChar '&' qs).foldr
    (fun f acc =>
      if f = [] then acc
      else
        let name := f.takeWhile (fun c => ¬ (c = '='))
        let value := if pyContains f (str ("=")) then afterFirstChar '=' f else []
        (unquotePlus name, unquotePlus value) :: acc) []

/-- Codepoint-lexicographic strict order on strings (Python `str <`). -/
def lineLt : Line → Line → Bool
  | [], [] => false
  | [], _ :: _ => true
  | _ :: _, [] => false
  | a :: as, b :: bs =>
    if a.toNat < b.toNat then true
    else if a.toNat = b.toNat then lineLt as bs
    else false

/-- Python tuple order on query pairs. -/
def pairLt (a b : Line × Line) : Bool :=
  lineLt a.1 b.1 || ((a.1 = b.1) && lineLt a.2 b.2)

/-- Insert into a sorted list after any equal elements (stable). -/
def insertSorted {α : Type} (lt : α → α → Bool) (x : α) : List α → List α
  | [] => [x]
  | y :: ys => if lt x y then x :: y :: ys else y :: insertSorted lt x ys

/-- Stable insertion sort (`list.sort()`). -/
def insertionSortBy {α : Type} (lt : α → α → Bool) (l : List α) : List α :=
  l.foldl (fun acc x => insertSorted lt x acc) []

/-- Model of `urlencode(pairs, doseq=True)` for string pairs. -/
def urlencodePairs (pairs : List (Line × Line)) : Line :=
  pyJoin (str ("&")) (pairs.map (fun kv => quotePlus kv.1 ++ (str ("=")) ++ quotePlus kv.2))

example :
    urlparseLite (str ("vless://u@h:443?b=2&a=1")) =
      ⟨str ("vless"), str ("u@h:443"), [], str ("b=2&a=1")⟩ := by decide
example : parseQsl (str ("b=2&a=1")) = [(str ("b"), str ("2")), (str ("a"), str ("1"))] := by decide
example :
    urlunparseLite (str ("vless")) (str ("u@h:443")) [] (str ("a=1&b=2")) =
      str ("vless://u@h:443?a=1&b=2") := by decide
example : unquotePlus (str ("a%2Fb+c")) = str ("a/b c") := by decide
example : quotePlus (str ("a/b c")) = str ("a%2Fb+c") := by decide

/-- Index of a character in the base64 alphabet. -/
def b64Index (c : Char) : Option Nat :=
  if 'A' ≤ c ∧ c ≤ 'Z' then some (c.toNat - 65)
  else if 'a' ≤ c ∧ c ≤ 'z' then some (c.toNat - 97 + 26)
  else if '0' ≤ c ∧ c ≤ '9' then some (c.toNat - 48 + 52)
  else if c = '+' then some 62
  else if c = '/' then some 63
  else none

/-- Decode base64 data characters (alphabet only, padding already removed)
four at a time; a trailing single character is the padding error. -/
def b64DecodeQuads : List Nat → Option (List Nat)
  | [] => some []
  | [_] => none
  | [a, b] => some [a * 4 + b / 16]
  | [a, b, c] => some [a * 4 + b / 16, b % 16 * 16 + c / 4]
  | a :: b :: c :: d :: rest =>
    (b64DecodeQuads rest).map
      (fun tail => (a * 4 + b / 16) :: (b % 16 * 16 + c / 4) :: (c % 4 * 64 + d) :: tail)

/-- Model of `base64.b64decode` with default validation: characters outside
the alphabet and `=` are discarded, the total must be a multiple of four,
data before the first `=` is decoded; `none` models `binascii.Error`. -/
def b64Decode (s : Line) : Option (List Nat) :=
  let cleaned := s.filter (fun c => (b64Index c).isSome || c = '=')
  if cleaned.length % 4 = 0 then
    b64DecodeQuads ((cleaned.takeWhile (fun c => ¬ (c = '='))).filterMap b64Index)
  else none

/-- JSON values as far as the vmess-normalisation needs them.  The script's
vmess payloads are flat objects of scalar fields; numbers are modelled as
integers (a non-integer number is treated as a parse failure, which sends
`normalize_vmess_url` to its exception branch returning the input). -/
inductive JVal where
  | jnull : JVal
  | jbool : Bool → JVal
  | jnum : Int → JVal
  | jstr : Line → JVal
deriving DecidableEq, Repr

/-- Left brace character (text, not interpolation). -/
def lbrace : Char := Char.ofNat 123

/-- Right brace character. -/
def rbrace : Char := Char.ofNat 125

/-- JSON whitespace skip. -/
def jsonSkipWs (s : Line) : Line :=
  s.dropWhile (fun c => c = ' ' ∨ c = '\t' ∨ c = '\n' ∨ c = '\r')

/-- Worker parsing one JSON string body after the opening quote, returning
the string and the remainder after the closing quote; handles the standard
escapes and `\uXXXX` (no surrogate pairing — such payloads do not occur). -/
def jsonStrGo : Nat → Line → Option (Line × Line)
  | 0, _ => none
  | _ + 1, [] => none
  | fuel + 1, c :: rest =>
    if c = '"' then some ([], rest)
    else if c = '\\' then
      match rest with
      | e :: rest2 =>
        let decoded : Option (Line × Line) :=
          if e = '"' then some (['"'], rest2)
          else if e = '\\' then some (['\\'], rest2)
          else if e = '/' then some (['/'], rest2)
          else if e = 'b' then some ([Char.ofNat 8], rest2)
          else if e = 'f' then some ([Char.ofNat 12], rest2)
          else if e = 'n' then some (['\n'], rest2)
          else if e = 'r' then some (['\r'], rest2)
          else if e = 't' then some (['\t'], rest2)
          else if e = 'u' then
            match rest2 with
            | h1 :: h2 :: h3 :: h4 :: rest3 =>
              match hexVal h1, hexVal h2, hexVal h3, hexVal h4 with
              | some a, some b, some c', some d =>
                some ([Char.ofNat (((a * 16 + b) * 16 + c') * 16 + d)], rest3)
              | _, _, _, _ => none
            | _ => none
          else none
        match decoded with
        | some (pre, rest') => (jsonStrGo fuel rest').map (fun p => (pre ++ p.1, p.2))
        | none => none
      | [] => none
    else (jsonStrGo fuel rest).map (fun p => (c :: p.1, p.2))

/-- Parse one JSON scalar (string, integer, `true`, `false`, `null`). -/
def jsonScalar (s : Line) : Option (JVal × Line) :=
  match s with
  | '"' :: rest => (jsonStrGo rest.length rest).map (fun p => (JVal.jstr p.1, p.2))
  | 't' :: 'r' :: 'u' :: 'e' :: rest => some (JVal.jbool true, rest)
  | 'f' :: 'a' :: 'l' :: 's' :: 'e' :: rest => some (JVal.jbool false, rest)
  | 'n' :: 'u' :: 'l' :: 'l' :: rest => some (JVal.jnull, rest)
  | '-' :: rest =>
    match takeDigits rest with
    | ([], _) => none
    | (ds, rest2) =>
      match rest2 with
      | '.' :: _ => none
      | 'e' :: _ => none
      | 'E' :: _ => none
      | _ => some (JVal.jnum (-(digitsToNat ds : Int)), rest2)
  | _ =>
    match takeDigits s with
    | ([], _) => none
    | (ds, rest2) =>
      match rest2 with
      | '.' :: _ => none
      | 'e' :: _ => none
      | 'E' :: _ => none
      | _ => some (JVal.jnum (digitsToNat ds : Int), rest2)

/-- Worker for the members of a flat JSON object: `"key": scalar` pairs
separated by commas, up to the closing brace. -/
def jsonMembersGo : Nat → Line → Option (List (Line × JVal) × Line)
  | 0, _ => none
  | fuel + 1, s =>
    match jsonSkipWs s with
    | '"' :: rest =>
      match jsonStrGo rest.length rest with
      | some (key, rest2) =>
        match jsonSkipWs rest2 with
        | ':' :: rest3 =>
          match jsonScalar (jsonSkipWs rest3) with
          | some (v, rest4) =>
            match jsonSkipWs rest4 with
            | ',' :: rest5 =>
              (jsonMembersGo fuel rest5).map (fun p => ((key, v) :: p.1, p.2))
            | c :: rest5 =>
              if c = rbrace then some ([(key, v)], rest5) else none
            | [] => none
          | none => none
        | _ => none
      | none => none
    | _ => none

/-- Model of `json.loads` restricted to flat objects of scalars (the shape of
every vmess payload the script handles); anything else is a parse failure. -/
def jsonLoadsFlat (s : Line) : Option (List (Line × JVal)) :=
  match jsonSkipWs s with
  | c :: rest =>
    if c = lbrace then
      match jsonSkipWs rest with
      | c2 :: rest2 =>
        if c2 = rbrace then
          if jsonSkipWs rest2 = [] then some [] else none
        else
          match jsonMembersGo s.length (c2 :: rest2) with
          | some (kvs, rest3) => if jsonSkipWs rest3 = [] then some kvs else none
          | none => none
      | [] => none
    else none
  | [] => none

/-- Python `str()` of a scalar JSON value (`str(val)` in the port/aid
conversion: `str(None)` is `"None"`, booleans render capitalised). -/
def pyStrOfJVal : JVal → Line
  | JVal.jnull => str ("None")
  | JVal.jbool true => str ("True")
  | JVal.jbool false => str ("False")
  | JVal.jnum n => if n < 0 then '-' :: natToDigits n.natAbs else natToDigits n.natAbs
  | JVal.jstr s => s

/-- Lower-case hex digit (as `json.dumps` emits in `\uXXXX`). -/
def hexDigitLower (n : Nat) : Char :=
  if n < 10 then Char.ofNat (48 + n) else if n < 16 then Char.ofNat (87 + n) else '0'

/-- Render `\uXXXX` for a 16-bit unit. -/
def jsonU16 (n : Nat) : Line :=
  ['\\', 'u', hexDigitLower (n / 4096 % 16), hexDigitLower (n / 256 % 16),
   hexDigitLower (n / 16 % 16), hexDigitLower (n % 16)]

/-- Model of `json.dumps` escaping of one character (`ensure_ascii=True`):
quote and backslash escaped, control characters by short escape or `\uXXXX`,
non-ASCII by `\uXXXX` (surrogate pair above U+FFFF). -/
def jsonEscChar (c : Char) : Line :=
  if c = '"' then ['\\', '"']
  else if c = '\\' then ['\\', '\\']
  else if c = '\n' then ['\\', 'n']
  else if c = '\t' then ['\\', 't']
  else if c = '\r' then ['\\', 'r']
  else if c = Char.ofNat 8 then ['\\', 'b']
  else if c = Char.ofNat 12 then ['\\', 'f']
  else if c.toNat < 32 then jsonU16 c.toNat
  else if c.toNat < 127 then [c]
  else if c.toNat < 65536 then jsonU16 c.toNat
  else
    jsonU16 (0xD800 + (c.toNat - 0x10000) / 1024) ++ jsonU16 (0xDC00 + (c.toNat - 0x10000) % 1024)

/-- Model of `json.dumps` for a string. -/
def jsonDumpStr (s : Line) : Line :=
  '"' :: (s.foldr (fun c acc => jsonEscChar c ++ acc) ['"'])

/-- Model of `json.dumps` for a scalar value. -/
def jsonDumpVal : JVal → Line
  | JVal.jnull => str ("null")
  | JVal.jbool true => str ("true")
  | JVal.jbool false => str ("false")
  | JVal.jnum n => if n < 0 then '-' :: natToDigits n.natAbs else natToDigits n.natAbs
  | JVal.jstr s => jsonDumpStr s

/-- Model of `json.dumps(obj, separators=(',', ':'))` for a flat object. -/
def jsonDumpObj (kvs : List (Line × JVal)) : Line :=
  [lbrace] ++
    pyJoin (str (","))
      (kvs.map (fun kv => jsonDumpStr kv.1 ++ (str (":")) ++ jsonDumpVal kv.2)) ++
  [rbrace]

/-- The `standard_keys` list of `normalize_vmess_url`. -/
def vmessStandardKeys : List Line :=
  [str ("v"), str ("ps"), str ("add"), str ("port"), str ("id"), str ("aid"),
   str ("net"), str ("type"), str ("host"), str ("path"), str ("tls")]

/-- Model of `normalize_vmess_url(server_line)`: decode the base64 payload,
parse the JSON config, project the standard keys (missing keys default to
the empty string, `port`/`aid` are passed through `str()` when non-empty,
`None` becomes empty), re-serialise with sorted keys and compact separators,
re-encode.  Any failure returns the input line unchanged. -/
def normalizeVmessUrl (serverLine : Line) : Line :=
  let b64Part := beforeFirst (str ("#")) (serverLine.drop 8)
  match b64Decode b64Part with
  | none => serverLine
  | some bytes =>
    match utf8DecodeStrict bytes with
    | none => serverLine
    | some decoded =>
      match jsonLoadsFlat decoded with
      | none => serverLine
      | some config =>
        let normalized := vmessStandardKeys.map (fun key =>
          let val := (adictLookup key config).getD (JVal.jstr [])
          let val :=
            if (key = str ("port") ∨ key = str ("aid")) ∧ ¬ (val = JVal.jstr []) then
              JVal.jstr (pyStrOfJVal val)
            else val
          let val := if val = JVal.jnull then JVal.jstr [] else val
          (key, val))
        let sortedConfig := insertionSortBy (fun a b => lineLt a.1 b.1) normalized
        let normalizedJson := jsonDumpObj sortedConfig
        str ("vmess://") ++ b64Encode (utf8Encode normalizedJson)

/-- Model of `extract_server_config(server_line)`: the canonical key used
for duplicate detection — vmess lines are normalised through their JSON
payload, URL-scheme lines through lower-cased scheme/netloc and sorted
re-encoded query parameters, anything else by its lower-cased pre-`#`
stripped text. -/
def extractServerConfig (serverLine : Line) : Line :=
  let s := pyStrip serverLine
  if pyStartsWith s (str ("vmess://")) then normalizeVmessUrl s
  else if pyStartsWith s (str ("vless://")) ∨ pyStartsWith s (str ("trojan://")) ∨
          pyStartsWith s (str ("ss://")) ∨ pyStartsWith s (str ("hysteria://")) ∨
          pyStartsWith s (str ("hysteria2://")) then
    let urlPart := beforeFirst (str ("#")) s
    let p := urlparseLite urlPart
    let scheme := pyLower p.scheme
    let netloc := pyLower p.netloc
    let queryParams := insertionSortBy pairLt (parseQsl p.query)
    let query := urlencodePairs queryParams
    urlunparseLite scheme netloc p.path query
  else pyLower (pyStrip (beforeFirst (str ("#")) s))

/-- Worker for `remove_duplicates`: `seen` is the set of canonical keys
already kept. -/
def removeDupGo (seen : List Line) : List Line → List Line
  | [] => []
  | s :: rest =>
    if pyStrip s = [] then removeDupGo seen rest
    else
      let key := extractServerConfig s
      if seen.contains key then removeDupGo seen rest
      else pyStrip s :: removeDupGo (seen ++ [key]) rest

/-- Model of `remove_duplicates(servers)`: skip blank lines, keep the first
line per canonical key (stored stripped), drop later lines with a seen key
(the duplicate-removal log entries are observers and not modelled). -/
def removeDuplicates (servers : List Line) : List Line := removeDupGo [] servers

/-- Model of `parse_non_working_line(line)`: `rsplit('|', 2)` into either
`server | date` or `server | source | date`, parsing the date with
`strptime('%Y-%m-%d %H:%M')` (the zero-padded shape the script itself
writes); `none` models the exception branch (no `|`, or a bad date). -/
def parseNonWorkingLine (line : Line) : Option (Line × DT × Option Line) :=
  match pyRsplit2 '|' line with
  | [a, b] =>
    (strptimeYmdHM (pyStrip b)).map (fun dt => (pyStrip a, dt, none))
  | [a, b, c] =>
    (strptimeYmdHM (pyStrip c)).map (fun dt => (pyStrip a, dt, some (pyStrip b)))
  | _ => none

/-- Model of `QUARANTINE_DAYS`. -/
def quarantineDays : Nat := 3

/-- Age in whole days (`timedelta.days`, floor division) between the clock
and a capture time. -/
def daysBetween (now dt : DT) : Int := (dtMinutes now - dtMinutes dt).fdiv 1440

/-- Model of `cleanup_non_working()`: keep every line that fails to parse or
whose server part is empty; remove (and log) entries at least
`QUARANTINE_DAYS` days old; keep the rest.  Returns the kept lines and the
removal log as (server, source) pairs. -/
def cleanupNonWorking (nonWorking : List Line) (now : DT) :
    List Line × List (Line × Option Line) :=
  nonWorking.foldl
    (fun (p : List Line × List (Line × Option Line)) line =>
      match parseNonWorkingLine line with
      | none => (p.1 ++ [line], p.2)
      | some (server, dt, src) =>
        if server = [] then (p.1 ++ [line], p.2)
        else if quarantineDays ≤ daysBetween now dt then (p.1, p.2 ++ [(server, src)])
        else (p.1 ++ [line], p.2)) ([], [])

example :
    extractServerConfig (str ("vless://u@h:443?b=2&a=1#X")) =
      str ("vless://u@h:443?a=1&b=2") := by decide
example :
    extractServerConfig (str ("vless://u@h:443?a=1&b=2#Y")) =
      str ("vless://u@h:443?a=1&b=2") := by decide
example :
    removeDuplicates [str ("vless://u@h:443?b=2&a=1#X"), str ("vless://u@h:443?a=1&b=2#Y")] =
      [str ("vless://u@h:443?b=2&a=1#X")] := by decide
example : removeDuplicates [str ("x "), str ("x")] = [str ("x")] := by decide
example :
    parseNonWorkingLine (str ("vless://u@h:443 | servers.txt | 2024-01-01 10:00")) =
      some (str ("vless://u@h:443"), ⟨2024, 1, 1, 10, 0⟩, some (str ("servers.txt"))) := by decide
example :
    (cleanupNonWorking [str ("a | 2024-01-01 10:00"), str ("b | 2024-01-03 10:00"), str ("bad")]
      ⟨2024, 1, 4, 10, 0⟩) =
      ([str ("b | 2024-01-03 10:00"), str ("bad")], [(str ("a"), none)]) := by decide
example :
    normalizeVmessUrl (str ("vmess://") ++
        b64Encode (utf8Encode ([lbrace] ++ str ("\"add\":\"h\",\"port\":443") ++ [rbrace]))) =
      str ("vmess://") ++ b64Encode (utf8Encode
        ([lbrace] ++ str ("\"add\":\"h\",\"aid\":\"\",\"host\":\"\",\"id\":\"\",\"net\":\"\",\"path\":\"\",\"port\":\"443\",\"ps\":\"\",\"tls\":\"\",\"type\":\"\",\"v\":\"\"") ++ [rbrace])) := by decide

theorem mem_dropWhileP {p : Char → Bool} {c : Char} : ∀ {l : Line}, c ∈ l.dropWhile p → c ∈ l := by
  intro l h
  induction l with
  | nil => simpa using h
  | cons a t ih =>
    by_cases hp : p a
    · simp [List.dropWhile, hp] at h
      exact List.mem_cons_of_mem a (ih h)
    · simpa [List.dropWhile, hp] using h

theorem mem_takeWhileP {p : Char → Bool} {c : Char} : ∀ {l : Line}, c ∈ l.takeWhile p → c ∈ l ∧ p c := by
  intro l h
  induction l with
  | nil => simp [List.takeWhile] at h
  | cons a t ih =>
    by_cases hp : p a
    · simp [List.takeWhile, hp] at h
      rcases h with h | h
      · exact ⟨by simp [h], h ▸ hp⟩
      · exact ⟨List.mem_cons_of_mem a (ih h).1, (ih h).2⟩
    · simp [List.takeWhile, hp] at h

theorem dropWhile_head_not {p : Char → Bool} : ∀ {l t : Line} {c : Char}, l.dropWhile p = c :: t → p c = false := by
  intro l
  induction l with
  | nil => intro t c h; simp [List.dropWhile] at h
  | cons a rest ih =>
    intro t c h
    by_cases hp : p a
    · exact ih (by simpa [List.dropWhile, hp] using h)
    · simp [List.dropWhile, hp] at h
      rw [← h.1]; simpa using hp

theorem mem_pyStrip {c : Char} {s : Line} (h : c ∈ pyStrip s) : c ∈ s := by
  unfold pyStrip at h
  rw [List.mem_reverse] at h
  have h2 := mem_dropWhileP h
  rw [List.mem_reverse] at h2
  exact mem_dropWhileP h2

theorem pyStrip_allws_nil {s : Line} (h : ∀ c ∈ pyStrip s, pyIsSpace c = true) : pyStrip s = [] := by
  unfold pyStrip at *
  cases hz : (s.dropWhile pyIsSpace).reverse.dropWhile pyIsSpace with
  | nil => simp [hz]
  | cons c t =>
    exfalso
    have hc : pyIsSpace c = false := dropWhile_head_not hz
    have hcmem : c ∈ ((s.dropWhile pyIsSpace).reverse.dropWhile pyIsSpace).reverse := by
      rw [List.mem_reverse, hz]; simp
    have := h c hcmem
    rw [hc] at this; cases this


theorem splitWsAcc_nil : ∀ {s acc : Line}, splitWsAcc acc s = [] →
    acc = [] ∧ ∀ c ∈ s, pyIsSpace c = true := by
  intro s
  induction s with
  | nil =>
    intro acc h
    by_cases ha : acc = []
    · exact ⟨ha, by simp⟩
    · simp [splitWsAcc, ha] at h
  | cons a t ih =>
    intro acc h
    by_cases hp : pyIsSpace a
    · by_cases ha : acc = []
      · subst ha
        simp only [splitWsAcc, hp, if_true, if_pos rfl] at h
        refine ⟨rfl, ?_⟩
        intro c hc
        rcases List.mem_cons.mp hc with h1 | h1
        · rw [h1]; exact hp
        · exact (ih h).2 c h1
      · simp [splitWsAcc, hp, ha] at h
    · simp only [splitWsAcc, hp, if_false] at h
      rcases ih h with ⟨h1, _⟩
      simp at h1

theorem splitWsAcc_token_mem {c : Char} : ∀ {s acc t : Line},
    t ∈ splitWsAcc acc s → c ∈ t → c ∈ acc ∨ c ∈ s := by
  intro s
  induction s with
  | nil =>
    intro acc t ht hc
    by_cases ha : acc = []
    · simp [splitWsAcc, ha] at ht
    · simp only [splitWsAcc] at ht
      rw [if_neg ha, List.mem_singleton] at ht
      subst ht
      exact Or.inl (List.mem_reverse.mp hc)
  | cons a rest ih =>
    intro acc t ht hc
    by_cases hp : pyIsSpace a
    · by_cases ha : acc = []
      · subst ha
        simp only [splitWsAcc, hp, if_true, if_pos rfl] at ht
        rcases ih ht hc with h | h
        · simp at h
        · exact Or.inr (List.mem_cons_of_mem a h)
      · simp only [splitWsAcc, hp, if_true, if_neg ha, List.mem_cons] at ht
        rcases ht with h | h
        · subst h
          exact Or.inl (List.mem_reverse.mp hc)
        · rcases ih h hc with h2 | h2
          · simp at h2
          · exact Or.inr (List.mem_cons_of_mem a h2)
    · simp only [splitWsAcc, hp, if_false] at ht
      rcases ih ht hc with h | h
      · rcases List.mem_cons.mp h with h2 | h2
        · exact Or.inr (by rw [h2]; simp)
        · exact Or.inl h2
      · exact Or.inr (List.mem_cons_of_mem a h)

theorem splitWsAcc_token_nows {c : Char} : ∀ {s acc t : Line},
    t ∈ splitWsAcc acc s → (∀ x ∈ acc, pyIsSpace x = false) → c ∈ t →
    pyIsSpace c = false := by
  intro s
  induction s with
  | nil =>
    intro acc t ht hacc hc
    by_cases ha : acc = []
    · simp [splitWsAcc, ha] at ht
    · simp only [splitWsAcc] at ht
      rw [if_neg ha, List.mem_singleton] at ht
      subst ht
      exact hacc c (List.mem_reverse.mp hc)
  | cons a rest ih =>
    intro acc t ht hacc hc
    by_cases hp : pyIsSpace a
    · by_cases ha : acc = []
      · subst ha
        simp only [splitWsAcc, hp, if_true, if_pos rfl] at ht
        exact ih ht (by simp) hc
      · simp only [splitWsAcc, hp, if_true, if_neg ha, List.mem_cons] at ht
        rcases ht with h | h
        · subst h
          exact hacc c (List.mem_reverse.mp hc)
        · exact ih h (by simp) hc
    · simp only [splitWsAcc, hp, if_false] at ht
      refine ih ht ?_ hc
      intro x hx
      rcases List.mem_cons.mp hx with h2 | h2
      · rw [h2]; simpa using hp
      · exact hacc x h2

theorem isPrefixOf_single {x c : Char} {rest : Line} :
    ([x].isPrefixOf (c :: rest)) = (x == c) := by
  simp [List.isPrefixOf]

theorem replaceGo_single {x : Char} : ∀ {fuel : Nat} {s : Line}, s.length ≤ fuel →
    replaceGo [x] [] fuel s = s.filter (fun c => ¬ (c = x)) := by
  intro fuel
  induction fuel with
  | zero =>
    intro s hs
    have : s = [] := List.length_eq_zero.mp (Nat.le_zero.mp hs)
    simp [this, replaceGo]
  | succ n ih =>
    intro s hs
    cases s with
    | nil => simp [replaceGo]
    | cons c rest =>
      simp only [replaceGo, isPrefixOf_single]
      by_cases hx : x = c
      · have : (x == c) = true := by simp [hx]
        rw [this]
        simp only [if_true, List.length_cons, List.length_nil, List.nil_append,
          Nat.zero_add, List.drop_succ_cons, List.drop_zero] at *
        rw [ih (Nat.le_of_succ_le_succ hs)]
        simp [List.filter, hx]
      · have : (x == c) = false := by simp [Ne.symm, hx]
        rw [this]
        simp only [Bool.false_eq_true, if_false]
        rw [ih (Nat.le_of_succ_le_succ (by simpa using hs))]
        have hcx : ¬ (c = x) := fun h => hx h.symm
        simp [List.filter, hcx]

theorem pyReplace_single {x : Char} {s : Line} :
    pyReplace s [x] [] = s.filter (fun c => ¬ (c = x)) := by
  unfold pyReplace
  rw [if_neg (by simp)]
  exact replaceGo_single (Nat.le_refl _)

theorem splitStrGo_single_head {x : Char} : ∀ {fuel : Nat} {s acc : Line}, s.length ≤ fuel →
    ∃ t, splitStrGo [x] acc fuel s =
      (acc.reverse ++ s.takeWhile (fun c => ¬ (c = x))) :: t := by
  intro fuel
  induction fuel with
  | zero =>
    intro s acc hs
    have : s = [] := List.length_eq_zero.mp (Nat.le_zero.mp hs)
    subst this
    exact ⟨[], by simp [splitStrGo]⟩
  | succ n ih =>
    intro s acc hs
    cases s with
    | nil => exact ⟨[], by simp [splitStrGo]⟩
    | cons c rest =>
      simp only [splitStrGo, isPrefixOf_single]
      by_cases hx : x = c
      · have hb : (x == c) = true := by simp [hx]
        rw [hb]
        simp only [if_true]
        refine ⟨splitStrGo [x] [] n ((c :: rest).drop [x].length), ?_⟩
        have : (c :: rest).takeWhile (fun c => ¬ (c = x)) = [] := by
          simp [List.takeWhile, hx.symm]
        rw [this, List.append_nil]
      · have hb : (x == c) = false := by simp [Ne.symm, hx]
        rw [hb]
        simp only [Bool.false_eq_true, if_false]
        rcases @ih rest (c :: acc) (Nat.le_of_succ_le_succ (by simpa using hs)) with ⟨t, ht⟩
        refine ⟨t, ?_⟩
        rw [ht]
        have hcx : ¬ (c = x) := fun h => hx h.symm
        simp [List.takeWhile, hcx]

theorem beforeFirst_single {x : Char} {s : Line} :
    beforeFirst [x] s = s.takeWhile (fun c => ¬ (c = x)) := by
  unfold beforeFirst pySplitStr
  rw [if_neg (by simp)]
  rcases @splitStrGo_single_head x s.length s [] (Nat.le_refl _) with ⟨t, ht⟩
  rw [ht]
  simp

theorem splitStrGo_head_mem {c : Char} {sep : Line} : ∀ {fuel : Nat} {s acc : Line},
    c ∈ (splitStrGo sep acc fuel s).headD [] → c ∈ acc ∨ c ∈ s := by
  intro fuel
  induction fuel with
  | zero =>
    intro s acc h
    simp only [splitStrGo, List.headD_cons] at h
    rcases List.mem_append.mp h with h | h
    · exact Or.inl (List.mem_reverse.mp h)
    · exact Or.inr h
  | succ n ih =>
    intro s acc h
    cases s with
    | nil =>
      simp only [splitStrGo, List.headD_cons] at h
      exact Or.inl (List.mem_reverse.mp h)
    | cons a rest =>
      simp only [splitStrGo] at h
      by_cases hp : sep.isPrefixOf (a :: rest)
      · rw [if_pos hp] at h
        simp only [List.headD_cons] at h
        exact Or.inl (List.mem_reverse.mp h)
      · rw [if_neg hp] at h
        rcases ih h with h2 | h2
        · rcases List.mem_cons.mp h2 with h3 | h3
          · exact Or.inr (by rw [h3]; simp)
          · exact Or.inl h3
        · exact Or.inr (List.mem_cons_of_mem a h2)

theorem splitStrGo_ne_nil {sep : Line} : ∀ {fuel : Nat} {s acc : Line},
    ∃ h t, splitStrGo sep acc fuel s = h :: t := by
  intro fuel
  cases fuel with
  | zero => intro s acc; exact ⟨_, _, rfl⟩
  | succ n =>
    intro s acc
    cases s with
    | nil => exact ⟨_, _, rfl⟩
    | cons a rest =>
      simp only [splitStrGo]
      by_cases hp : sep.isPrefixOf (a :: rest)
      · rw [if_pos hp]; exact ⟨_, _, rfl⟩
      · rw [if_neg hp]; exact splitStrGo_ne_nil

theorem beforeFirst_mem {c : Char} {sep s : Line} (h : c ∈ beforeFirst sep s) : c ∈ s := by
  unfold beforeFirst pySplitStr at h
  by_cases hsep : sep = []
  · simpa [hsep] using h
  · rw [if_neg hsep] at h
    have heq : (splitStrGo sep [] s.length s).headD s = (splitStrGo sep [] s.length s).headD [] := by
      rcases @splitStrGo_ne_nil sep s.length s [] with ⟨hh, t, heq⟩
      rw [heq]
      simp
    rw [heq] at h
    rcases splitStrGo_head_mem h with h2 | h2
    · simp at h2
    · exact h2

theorem pyContains_single_mem {x : Char} {s : Line} :
    pyContains s [x] = true ↔ x ∈ s := by
  induction s with
  | nil => simp [pyContains]
  | cons c rest ih =>
    simp only [pyContains, isPrefixOf_single, Bool.or_eq_true, beq_iff_eq, List.mem_cons, ih]

/-- The cleaned core of a registry line inside `extract_username_from_line`:
blocked glyph removed, stripped, `#`-note cut, `---` directive suffix cut. -/
def usernameCleaned (userLine : Line) : Line :=
  let a := pyStrip (pyReplace userLine blockedSymStr [])
  let b := if pyContains a (str ("#")) then pyStrip (beforeFirst (str ("#")) a) else a
  if pyContains b dashes3 then pyStrip (beforeFirst dashes3 b) else b

theorem mem_usernameCleaned_hash {userLine : Line} {c : Char}
    (h : c ∈ usernameCleaned userLine) :
    c ≠ '#' ∧ c ≠ blockedSym := by
  unfold usernameCleaned at h
  set a := pyStrip (pyReplace userLine blockedSymStr []) with ha
  have amem : ∀ x ∈ a, x ≠ blockedSym := by
    intro x hx
    have hmem := mem_pyStrip hx
    rw [show blockedSymStr = [blockedSym] from rfl, pyReplace_single] at hmem
    have := List.of_mem_filter hmem
    simpa using this
  set b := if pyContains a (str ("#")) then pyStrip (beforeFirst (str ("#")) a) else a with hb
  have bmem : ∀ x ∈ b, x ≠ '#' ∧ x ≠ blockedSym := by
    intro x hx
    rw [hb] at hx
    by_cases hca : pyContains a (str ("#")) = true
    · rw [if_pos hca] at hx
      have hx2 := mem_pyStrip hx
      have : (str ("#")) = ['#'] := rfl
      rw [this, beforeFirst_single] at hx2
      have ⟨hmem, hne⟩ := mem_takeWhileP hx2
      refine ⟨by simpa using hne, amem x hmem⟩
    · rw [if_neg hca] at hx
      refine ⟨?_, amem x hx⟩
      intro hxe
      subst hxe
      have : pyContains a (str ("#")) = true := by
        have : (str ("#")) = ['#'] := rfl
        rw [this, pyContains_single_mem]
        exact hx
      exact hca this
  by_cases hcb : pyContains b dashes3 = true
  · rw [if_pos hcb] at h
    exact bmem c (beforeFirst_mem (mem_pyStrip h))
  · rw [if_neg hcb] at h
    exact bmem c h

theorem extractUsername_eq_token (userLine : Line) :
    extractUsername userLine = (pySplitWs (usernameCleaned userLine)).headD []
    ∨ (extractUsername userLine = [] ∧ usernameCleaned userLine = []) := by
  unfold extractUsername usernameCleaned headOr
  set a := pyStrip (pyReplace userLine blockedSymStr []) with ha
  set b := if pyContains a (str ("#")) then pyStrip (beforeFirst (str ("#")) a) else a with hb
  have bstrip : ∃ z, b = pyStrip z := by
    rw [hb]
    by_cases hca : pyContains a (str ("#")) = true
    · rw [if_pos hca]; exact ⟨_, rfl⟩
    · rw [if_neg hca]; exact ⟨_, rfl⟩
  by_cases hcb : pyContains b dashes3 = true
  · rw [if_pos hcb, if_pos hcb]
    left; rfl
  · rw [if_neg hcb, if_neg hcb]
    cases htok : pySplitWs b with
    | nil =>
      right
      rcases bstrip with ⟨z, hz⟩
      have hall : ∀ c ∈ b, pyIsSpace c = true := by
        have := @splitWsAcc_nil b [] htok
        exact this.2
      have hbe : b = [] := by
        rw [hz] at hall ⊢
        exact pyStrip_allws_nil hall
      constructor
      · rw [← hb, hbe]; decide
      · rw [← hb]; exact hbe
    | cons t ts => left; simp [htok]

/-- C10: `extract_username_from_line` is total on every input string, its
result contains no whitespace, no `#`, and no blocked-marker glyph, and on a
non-empty cleaned line (glyph removed, note and directive suffixes cut) it
is the first whitespace-delimited token of that cleaned text. -/
theorem extractUsername_safety (userLine : Line) :
    (∀ c ∈ extractUsername userLine,
      pyIsSpace c = false ∧ c ≠ '#' ∧ c ≠ blockedSym) ∧
    (usernameCleaned userLine ≠ [] →
      extractUsername userLine = (pySplitWs (usernameCleaned userLine)).headD []) := by
  constructor
  · intro c hc
    have hmem : c ∈ usernameCleaned userLine ∧ pyIsSpace c = false := by
      rcases extractUsername_eq_token userLine with h | ⟨h1, h2⟩
      · rw [h] at hc
        cases htok : pySplitWs (usernameCleaned userLine) with
        | nil => rw [htok] at hc; simp at hc
        | cons t ts =>
          rw [htok] at hc
          simp only [List.headD_cons] at hc
          have htmem : t ∈ pySplitWs (usernameCleaned userLine) := by rw [htok]; simp
          unfold pySplitWs at htmem
          constructor
          · rcases splitWsAcc_token_mem htmem hc with h2 | h2
            · simp at h2
            · exact h2
          · exact splitWsAcc_token_nows htmem (by simp) hc
      · rw [h1] at hc; simp at hc
    exact ⟨hmem.2, mem_usernameCleaned_hash hmem.1⟩
  · intro hne
    rcases extractUsername_eq_token userLine with h | ⟨h1, h2⟩
    · exact h
    · exact absurd h2 hne

theorem extractUsername_safety_witness :
    usernameCleaned (str ("a#b c ---d")) ≠ [] ∧
    extractUsername (str ("a#b c ---d")) = (pySplitWs (usernameCleaned (str ("a#b c ---d")))).headD [] :=
  ⟨by decide, (extractUsername_safety (str ("a#b c ---d"))).2 (by decide)⟩

theorem filter_single_of_nodup {f : Line → Line} {u : Line} :
    ∀ {users : List Line} {l : Line}, (users.map f).Nodup → l ∈ users → f l = u →
    users.filter (fun x => f x = u) = [l] := by
  intro users
  induction users with
  | nil => intro l _ h; simp at h
  | cons a rest ih =>
    intro l hnd hmem hfl
    have hnd2 := hnd
    rw [List.map_cons, List.nodup_cons] at hnd2
    rcases List.mem_cons.mp hmem with h | h
    · subst h
      have hrest : rest.filter (fun x => f x = u) = [] := by
        rw [List.filter_eq_nil_iff]
        intro x hx
        simp only [decide_eq_true_eq]
        intro hfx
        have hm : f x ∈ List.map f rest := List.mem_map_of_mem f hx
        rw [hfx, ← hfl] at hm
        exact hnd2.1 hm
      simp [List.filter, hfl, hrest]
    · have hfa : ¬ (f a = u) := by
        intro hfa
        refine hnd2.1 ?_
        rw [hfa, ← hfl]
        exact List.mem_map_of_mem f h
      rw [List.filter_cons]
      simp only [decide_eq_true_eq, hfa, if_false]
      exact ih hnd2.2 h hfl

/-- C9 (corrected): with pairwise-distinct extracted usernames,
`move_user_to_top` permutes its input — a matching *non-empty* line moves to
index 0 with the relative order of the others preserved, a matching empty
line leaves the list unchanged (the source's `if user_line:` guard is falsy
on the empty string), and with no match the list is unchanged; without the
distinctness precondition lines can be dropped.  The original claim's
unconditional move-to-index-0 is refuted by
`moveUserToTop_counterexample`. -/
theorem moveUserToTop_spec :
    (∀ (users : List Line) (username : Line), (users.map extractUsername).Nodup →
      List.Perm (moveUserToTop users username) users ∧
      (∀ l ∈ users, extractUsername l = username → ¬ (l = []) →
        moveUserToTop users username =
          l :: users.filter (fun x => ¬ (extractUsername x = username))) ∧
      (∀ l ∈ users, extractUsername l = username → l = [] →
        moveUserToTop users username = users) ∧
      ((∀ l ∈ users, ¬ (extractUsername l = username)) →
        moveUserToTop users username = users)) ∧
    (∃ (users : List Line) (username : Line),
      ¬ (users.map extractUsername).Nodup ∧
      (moveUserToTop users username).length < users.length) := by
  constructor
  · intro users username hnd
    have hmatch : ∀ l ∈ users, extractUsername l = username → ¬ (l = []) →
        moveUserToTop users username =
          l :: users.filter (fun x => ¬ (extractUsername x = username)) := by
      intro l hmem hfl hne
      unfold moveUserToTop
      rw [filter_single_of_nodup hnd hmem hfl]
      simp [hne]
    have hempty : ∀ l ∈ users, extractUsername l = username → l = [] →
        moveUserToTop users username = users := by
      intro l hmem hfl hnil
      unfold moveUserToTop
      rw [filter_single_of_nodup hnd hmem hfl]
      simp [hnil]
    refine ⟨?_, hmatch, hempty, ?_⟩
    · by_cases hex : ∃ l ∈ users, extractUsername l = username
      · rcases hex with ⟨l, hmem, hfl⟩
        by_cases hnil : l = []
        · rw [hempty l hmem hfl hnil]
        · rw [hmatch l hmem hfl hnil]
          have hperm := List.filter_append_perm (fun x => decide (extractUsername x = username)) users
          rw [filter_single_of_nodup hnd hmem hfl] at hperm
          refine List.Perm.trans ?_ hperm
          simp
      · push_neg at hex
        unfold moveUserToTop
        have : users.filter (fun x => extractUsername x = username) = [] := by
          rw [List.filter_eq_nil_iff]
          intro x hx
          simpa using hex x hx
        rw [this]
        simp
    · intro hno
      unfold moveUserToTop
      have : users.filter (fun x => extractUsername x = username) = [] := by
        rw [List.filter_eq_nil_iff]
        intro x hx
        simpa using hno x hx
      rw [this]
      simp
  · refine ⟨[str ("a"), str ("a b")], str ("a"), by decide, by decide⟩

theorem moveUserToTop_spec_witness :
    ([str ("b 2"), str ("c 3")].map extractUsername).Nodup ∧
    moveUserToTop [str ("b 2"), str ("c 3")] (str ("c")) = [str ("c 3"), str ("b 2")] := by
  refine ⟨by decide, ?_⟩
  have h := (moveUserToTop_spec.1 [str ("b 2"), str ("c 3")] (str ("c")) (by decide)).2.1
    (str ("c 3")) (by decide) (by decide) (by decide)
  rw [h]
  decide

/-- C9 counterexample to the claim as stated: for the registry
`["a", ""]` and the requested username `""` the extracted usernames
`["a", ""]` are pairwise distinct and the empty line matches, yet
`move_user_to_top` returns the list unchanged (`if user_line:` is falsy on
`""`) instead of moving the matching line to index 0. -/
theorem moveUserToTop_counterexample :
    ([str ("a"), ([] : Line)].map extractUsername).Nodup ∧
    extractUsername ([] : Line) = [] ∧
    moveUserToTop [str ("a"), ([] : Line)] [] = [str ("a"), ([] : Line)] ∧
    ¬ (moveUserToTop [str ("a"), ([] : Line)] [] =
        ([] : Line) ::
          ([str ("a"), ([] : Line)].filter (fun x => ¬ (extractUsername x = [])))) := by
  decide

theorem dropWhile_length_le (p : Char → Bool) : ∀ l : Line, (l.dropWhile p).length ≤ l.length := by
  intro l
  induction l with
  | nil => simp
  | cons a t ih =>
    by_cases hp : p a
    · simp only [List.dropWhile, hp]
      exact Nat.le_succ_of_le ih
    · simp [List.dropWhile, hp]

theorem dropWhile_head_false {p : Char → Bool} {c : Char} {t : Line}
    (h : List.dropWhile p (c :: t) = c :: t) : p c = false := by
  by_cases hp : p c
  · exfalso
    rw [List.dropWhile_cons, if_pos hp] at h
    have := dropWhile_length_le p t
    rw [h] at this
    simp at this
  · simpa using hp

theorem pyStrip_idem (s : Line) : pyStrip (pyStrip s) = pyStrip s := by
  show List.rdropWhile pyIsSpace
      (List.dropWhile pyIsSpace (List.rdropWhile pyIsSpace (List.dropWhile pyIsSpace s))) =
    List.rdropWhile pyIsSpace (List.dropWhile pyIsSpace s)
  set X := List.dropWhile pyIsSpace s with hX
  have hXfix : List.dropWhile pyIsSpace X = X := List.dropWhile_idempotent pyIsSpace s
  have hinner : List.dropWhile pyIsSpace (List.rdropWhile pyIsSpace X) =
      List.rdropWhile pyIsSpace X := by
    cases hr : List.rdropWhile pyIsSpace X with
    | nil => simp
    | cons c t =>
      have hpre := List.rdropWhile_prefix (p := pyIsSpace) (l := X)
      rw [hr] at hpre
      rcases hpre with ⟨r, hrr⟩
      have hc : pyIsSpace c = false := by
        have : List.dropWhile pyIsSpace (c :: (t ++ r)) = c :: (t ++ r) := by
          rw [show c :: (t ++ r) = X from by rw [← hrr]; simp]
          exact hXfix
        exact dropWhile_head_false this
      rw [List.dropWhile_cons, hc]
      simp
  rw [hinner, List.rdropWhile_idempotent pyIsSpace X]

theorem extractServerConfig_strip (s : Line) :
    extractServerConfig (pyStrip s) = extractServerConfig s := by
  unfold extractServerConfig
  rw [pyStrip_idem]

/-- Modelled from the spec's words, for comparison with the code: "keeps the
first-seen literal line per canonical key, drops subsequent duplicates"
(blank lines skipped as the code does). -/
def specFirstSeenGo (seen : List Line) : List Line → List Line
  | [] => []
  | s :: rest =>
    if pyStrip s = [] then specFirstSeenGo seen rest
    else
      let key := extractServerConfig s
      if seen.contains key then specFirstSeenGo seen rest
      else s :: specFirstSeenGo (seen ++ [key]) rest

/-- Spec-worded dedup keeping the literal first-seen line. -/
def specFirstSeen (servers : List Line) : List Line := specFirstSeenGo [] servers

theorem removeDupGo_eq_spec : ∀ (l : List Line) (seen : List Line),
    removeDupGo seen l = (specFirstSeenGo seen l).map pyStrip := by
  intro l
  induction l with
  | nil => intro seen; simp [removeDupGo, specFirstSeenGo]
  | cons s rest ih =>
    intro seen
    by_cases hb : pyStrip s = []
    · simp only [removeDupGo, specFirstSeenGo, hb, if_pos rfl]
      simp [ih]
    · by_cases hk : (seen.contains (extractServerConfig s)) = true
      · simp only [removeDupGo, specFirstSeenGo, if_neg hb, hk, if_true]
        simp [hb, ih]
      · simp only [removeDupGo, specFirstSeenGo, if_neg hb, hk]
        simp only [Bool.false_eq_true, if_false, List.map_cons]
        simp [hb, hk, ih]

theorem removeDupGo_idem : ∀ (l : List Line) (seen : List Line),
    removeDupGo seen (removeDupGo seen l) = removeDupGo seen l := by
  intro l
  induction l with
  | nil => intro seen; simp [removeDupGo]
  | cons s rest ih =>
    intro seen
    by_cases hb : pyStrip s = []
    · simp only [removeDupGo, hb, if_pos rfl]
      exact ih seen
    · by_cases hk : (seen.contains (extractServerConfig s)) = true
      · simp only [removeDupGo, if_neg hb, hk, if_true]
        exact ih seen
      · simp only [removeDupGo, if_neg hb, hk]
        simp only [Bool.false_eq_true, if_false]
        have hss : pyStrip (pyStrip s) = pyStrip s := pyStrip_idem s
        have hks : extractServerConfig (pyStrip s) = extractServerConfig s :=
          extractServerConfig_strip s
        simp only [removeDupGo, hss, if_neg hb, hks, hk]
        simp only [Bool.false_eq_true, if_false]
        rw [ih (seen ++ [extractServerConfig s])]

/-- C4 (amended): `remove_duplicates` keeps, per canonical key from
`extract_server_config`, exactly the whitespace-stripped copy of the
first-seen line (blank lines skipped), drops every later line with a seen
key, and is idempotent; for a vless URI and a permuted-query copy the result
is the first line alone. -/
theorem removeDuplicates_spec :
    (∀ servers : List Line,
      removeDuplicates servers = (specFirstSeen servers).map pyStrip ∧
      removeDuplicates (removeDuplicates servers) = removeDuplicates servers) ∧
    removeDuplicates [str ("vless://u@h:443?b=2&a=1#X"), str ("vless://u@h:443?a=1&b=2#Y")] =
      [str ("vless://u@h:443?b=2&a=1#X")] := by
  refine ⟨?_, by decide⟩
  intro servers
  exact ⟨removeDupGo_eq_spec servers [], removeDupGo_idem servers []⟩

/-- C4 counterexample to the claim as stated: the kept line is the stripped
copy, not the first-seen literal line. -/
theorem removeDuplicates_counterexample :
    specFirstSeen [str (" x")] = [str (" x")] ∧
    ¬ (removeDuplicates [str (" x")] = [str (" x")]) := by decide

/-- Keep-predicate of `cleanup_non_working`: unparseable or server-less
lines are kept, parsed entries are kept exactly when younger than the
quarantine window. -/
def nwKeep (now : DT) (line : Line) : Bool :=
  match parseNonWorkingLine line with
  | none => true
  | some (server, dt, _) =>
    if server = [] then true else decide (daysBetween now dt < quarantineDays)

/-- Log entry of a removed quarantine line. -/
def nwLog (line : Line) : Line × Option Line :=
  match parseNonWorkingLine line with
  | some (server, _, src) => (server, src)
  | none => ([], none)

theorem cleanupNonWorking_fold : ∀ (lines : List Line) (now : DT)
    (acc : List Line × List (Line × Option Line)),
    lines.foldl
      (fun (p : List Line × List (Line × Option Line)) line =>
        match parseNonWorkingLine line with
        | none => (p.1 ++ [line], p.2)
        | some (server, dt, src) =>
          if server = [] then (p.1 ++ [line], p.2)
          else if quarantineDays ≤ daysBetween now dt then (p.1, p.2 ++ [(server, src)])
          else (p.1 ++ [line], p.2)) acc =
    (acc.1 ++ lines.filter (nwKeep now),
     acc.2 ++ (lines.filter (fun l => ¬ nwKeep now l)).map nwLog) := by
  intro lines
  induction lines with
  | nil => intro now acc; simp
  | cons line rest ih =>
    intro now acc
    rw [List.foldl_cons]
    cases hp : parseNonWorkingLine line with
    | none =>
      have hk : nwKeep now line = true := by simp [nwKeep, hp]
      simp only [hp]
      rw [ih]
      simp [List.filter_cons, hk]
    | some v =>
      rcases v with ⟨server, dt, src⟩
      by_cases hs : server = []
      · have hk : nwKeep now line = true := by simp [nwKeep, hp, hs]
        simp only [hp, if_pos hs]
        rw [ih]
        simp [List.filter_cons, hk]
      · by_cases hq : quarantineDays ≤ daysBetween now dt
        · have hk : nwKeep now line = false := by
            simp [nwKeep, hp, hs]
            omega
          have hl : nwLog line = (server, src) := by simp [nwLog, hp]
          simp only [hp, if_neg hs, if_pos hq]
          rw [ih]
          simp [List.filter_cons, hk, hl]
        · have hk : nwKeep now line = true := by
            simp [nwKeep, hp, hs]
            omega
          simp only [hp, if_neg hs, if_neg hq]
          rw [ih]
          simp [List.filter_cons, hk]

/-- C8: on a pass over the quarantine list, every well-formed entry (parsed
server and capture time, non-empty server) at least `QUARANTINE_DAYS` days
old is removed and its removal logged, every well-formed entry still within
the window is retained, and entries whose line cannot be parsed are
retained unchanged. -/
theorem cleanupNonWorking_spec : ∀ (lines : List Line) (now : DT) (line : Line),
    line ∈ lines →
    (∀ server dt src, parseNonWorkingLine line = some (server, dt, src) → ¬ (server = []) →
      (quarantineDays ≤ daysBetween now dt →
        ¬ (line ∈ (cleanupNonWorking lines now).1) ∧
        (server, src) ∈ (cleanupNonWorking lines now).2) ∧
      (daysBetween now dt < quarantineDays → line ∈ (cleanupNonWorking lines now).1)) ∧
    (parseNonWorkingLine line = none → line ∈ (cleanupNonWorking lines now).1) := by
  intro lines now line hmem
  have hchar : cleanupNonWorking lines now =
      (lines.filter (nwKeep now), (lines.filter (fun l => ¬ nwKeep now l)).map nwLog) := by
    unfold cleanupNonWorking
    rw [cleanupNonWorking_fold lines now ([], [])]
    simp
  constructor
  · intro server dt src hp hs
    constructor
    · intro hq
      have hk : nwKeep now line = false := by
        simp [nwKeep, hp, hs]
        omega
      constructor
      · rw [hchar]
        simp only [List.mem_filter]
        intro hcon
        rw [hk] at hcon
        exact (by simpa using hcon.2)
      · rw [hchar]
        simp only
        have hlm : line ∈ lines.filter (fun l => ¬ nwKeep now l) := by
          rw [List.mem_filter]
          exact ⟨hmem, by simp [hk]⟩
        have := List.mem_map_of_mem nwLog hlm
        rw [show nwLog line = (server, src) from by simp [nwLog, hp]] at this
        exact this
    · intro hq
      have hk : nwKeep now line = true := by
        simp [nwKeep, hp, hs]
        omega
      rw [hchar]
      exact List.mem_filter.mpr ⟨hmem, hk⟩
  · intro hp
    have hk : nwKeep now line = true := by simp [nwKeep, hp]
    rw [hchar]
    exact List.mem_filter.mpr ⟨hmem, hk⟩

theorem cleanupNonWorking_spec_witness :
    (str ("a | 2024-01-01 10:00")) ∈ [str ("a | 2024-01-01 10:00"), str ("b | 2024-01-03 10:00")] ∧
    parseNonWorkingLine (str ("a | 2024-01-01 10:00")) = some (str ("a"), ⟨2024, 1, 1, 10, 0⟩, none) ∧
    ¬ ((str ("a | 2024-01-01 10:00")) ∈
      (cleanupNonWorking [str ("a | 2024-01-01 10:00"), str ("b | 2024-01-03 10:00")] ⟨2024, 1, 4, 10, 0⟩).1) ∧
    (str ("a"), (none : Option Line)) ∈
      (cleanupNonWorking [str ("a | 2024-01-01 10:00"), str ("b | 2024-01-03 10:00")] ⟨2024, 1, 4, 10, 0⟩).2 ∧
    (str ("b | 2024-01-03 10:00")) ∈
      (cleanupNonWorking [str ("a | 2024-01-01 10:00"), str ("b | 2024-01-03 10:00")] ⟨2024, 1, 4, 10, 0⟩).1 := by
  refine ⟨by decide, by decide, ?_, ?_, ?_⟩
  · exact (((cleanupNonWorking_spec
      [str ("a | 2024-01-01 10:00"), str ("b | 2024-01-03 10:00")] ⟨2024, 1, 4, 10, 0⟩
      (str ("a | 2024-01-01 10:00")) (by decide)).1 (str ("a")) ⟨2024, 1, 1, 10, 0⟩ none
      (by decide) (by decide)).1 (by decide)).1
  · exact (((cleanupNonWorking_spec
      [str ("a | 2024-01-01 10:00"), str ("b | 2024-01-03 10:00")] ⟨2024, 1, 4, 10, 0⟩
      (str ("a | 2024-01-01 10:00")) (by decide)).1 (str ("a")) ⟨2024, 1, 1, 10, 0⟩ none
      (by decide) (by decide)).1 (by decide)).2
  · exact ((cleanupNonWorking_spec
      [str ("a | 2024-01-01 10:00"), str ("b | 2024-01-03 10:00")] ⟨2024, 1, 4, 10, 0⟩
      (str ("b | 2024-01-03 10:00")) (by decide)).1 (str ("b")) ⟨2024, 1, 3, 10, 0⟩ none
      (by decide) (by decide)).2 (by decide)

theorem adictLookup_append {u : Line} : ∀ (d e : List (Line × Line)),
    adictLookup u (d ++ e) =
      match adictLookup u d with
      | some c => some c
      | none => adictLookup u e := by
  intro d e
  induction d with
  | nil => simp [adictLookup]
  | cons kv rest ih =>
    by_cases hk : kv.1 = u
    · simp [adictLookup, hk]
    · simpa [adictLookup, hk] using ih

theorem containsL_iff {x : Line} {l : List Line} : l.contains x = true ↔ x ∈ l := by
  simp [List.contains]

theorem ensure_lookup_some {u : Line} {c : Line} : ∀ (mus : List Line) (d : List (Line × Line)),
    adictLookup u d = some c →
    adictLookup u (mus.foldl
      (fun d ul =>
        let v := extractUsername ul
        match adictLookup v d with
        | some _ => d
        | none => d ++ [(v, [])]) d) = some c := by
  intro mus
  induction mus with
  | nil => intro d h; simpa using h
  | cons ul rest ih =>
    intro d h
    rw [List.foldl_cons]
    cases hl : adictLookup (extractUsername ul) d with
    | some v => simp only [hl]; exact ih d h
    | none =>
      simp only [hl]
      refine ih _ ?_
      rw [adictLookup_append, h]

theorem ensure_lookup_managed {u : Line} : ∀ (mus : List Line) (d : List (Line × Line)),
    u ∈ mus.map extractUsername →
    ∃ c, adictLookup u (mus.foldl
      (fun d ul =>
        let v := extractUsername ul
        match adictLookup v d with
        | some _ => d
        | none => d ++ [(v, [])]) d) = some c := by
  intro mus
  induction mus with
  | nil => intro d h; simp at h
  | cons ul rest ih =>
    intro d h
    rw [List.foldl_cons]
    rw [List.map_cons] at h
    rcases List.mem_cons.mp h with he | he
    · cases hl : adictLookup (extractUsername ul) d with
      | some v =>
        simp only [hl]
        subst he
        exact ⟨v, ensure_lookup_some rest d hl⟩
      | none =>
        simp only [hl]
        subst he
        refine ⟨[], ensure_lookup_some rest _ ?_⟩
        rw [adictLookup_append, hl]
        simp [adictLookup]
    · cases hl : adictLookup (extractUsername ul) d with
      | some v => simp only [hl]; exact ih d he
      | none => simp only [hl]; exact ih _ he

theorem ensure_lookup_unmanaged {u : Line} : ∀ (mus : List Line) (d : List (Line × Line)),
    ¬ u ∈ mus.map extractUsername →
    adictLookup u (mus.foldl
      (fun d ul =>
        let v := extractUsername ul
        match adictLookup v d with
        | some _ => d
        | none => d ++ [(v, [])]) d) = adictLookup u d := by
  intro mus
  induction mus with
  | nil => intro d h; simp
  | cons ul rest ih =>
    intro d h
    have hne : ¬ (extractUsername ul = u) := by
      intro he
      exact h (by rw [List.map_cons, he]; simp)
    have hrest : ¬ u ∈ rest.map extractUsername := by
      intro he
      exact h (by rw [List.map_cons]; exact List.mem_cons_of_mem _ he)
    rw [List.foldl_cons]
    cases hl : adictLookup (extractUsername ul) d with
    | some v => simp only [hl]; exact ih d hrest
    | none =>
      simp only [hl]
      rw [ih _ hrest, adictLookup_append]
      cases hu : adictLookup u d with
      | some c => simp
      | none => simp [adictLookup, hne]

theorem publish_map_lookup {mn bn srv : List Line} {u : Line} :
    ∀ (d : List (Line × Line)),
    adictLookup u (d.map (fun kv =>
        if mn.contains kv.1 then
          (kv.1, encodeSubscription (if bn.contains kv.1 then fakeServers else srv))
        else kv)) =
      (adictLookup u d).map (fun c =>
        if mn.contains u then
          encodeSubscription (if bn.contains u then fakeServers else srv)
        else c) := by
  intro d
  induction d with
  | nil => simp [adictLookup]
  | cons kv rest ih =>
    simp only [List.map_cons]
    by_cases hc : mn.contains kv.1 = true
    · rw [if_pos hc]
      simp only [adictLookup]
      by_cases hk : kv.1 = u
      · rw [if_pos hk, if_pos hk, ← hk]
        have hm2 : kv.1 ∈ mn := containsL_iff.mp hc
        simp [hm2]
      · rw [if_neg hk, if_neg hk]
        exact ih
    · rw [if_neg hc]
      simp only [adictLookup]
      by_cases hk : kv.1 = u
      · rw [if_pos hk, if_pos hk, ← hk]
        have hm2 : ¬ kv.1 ∈ mn := fun h => hc (containsL_iff.mpr h)
        simp [hm2]
      · rw [if_neg hk, if_neg hk]
        exact ih

/-- C7: during the publish step, every username of the user list has a
subscription file afterwards whose content is the encoded payload (live list,
or decoy when blocked), and every subscription file whose username is not in
the user list keeps exactly its previous content. -/
theorem publishSubscriptions_spec :
    ∀ (managed blockedFileLines servers : List Line) (dir : List (Line × Line)) (u : Line),
    (u ∈ managed.map extractUsername →
      adictLookup u (publishSubscriptions managed blockedFileLines servers dir) =
        some (encodeSubscription
          (if (getBlockedUsers blockedFileLines).contains u then fakeServers else servers))) ∧
    (¬ u ∈ managed.map extractUsername →
      adictLookup u (publishSubscriptions managed blockedFileLines servers dir) =
        adictLookup u dir) := by
  intro managed blockedFileLines servers dir u
  constructor
  · intro hm
    simp only [publishSubscriptions]
    rcases ensure_lookup_managed managed dir hm with ⟨c, hc⟩
    rw [publish_map_lookup, hc]
    have hct : (managed.map extractUsername).contains u = true := containsL_iff.mpr hm
    simp only [Option.map_some']
    rw [if_pos hct]
  · intro hm
    simp only [publishSubscriptions]
    rw [publish_map_lookup, ensure_lookup_unmanaged managed dir hm]
    have : (managed.map extractUsername).contains u = false := by
      rw [← Bool.not_eq_true]
      intro hcon
      exact hm (containsL_iff.mp hcon)
    cases hu : adictLookup u dir with
    | some c =>
      simp only [Option.map_some']
      rw [if_neg (by rw [this]; simp)]
    | none => simp

theorem publishSubscriptions_spec_witness :
    ((str ("alice")) ∈ [str ("alice 5")].map extractUsername ∧
      adictLookup (str ("alice"))
        (publishSubscriptions [str ("alice 5")] [str ("alice")] [str ("srv")]
          [(str ("zed"), str ("old"))]) =
        some (encodeSubscription fakeServers)) ∧
    (¬ (str ("zed")) ∈ [str ("alice 5")].map extractUsername ∧
      adictLookup (str ("zed"))
        (publishSubscriptions [str ("alice 5")] [str ("alice")] [str ("srv")]
          [(str ("zed"), str ("old"))]) = some (str ("old"))) := by
  constructor
  · refine ⟨by decide, ?_⟩
    have h := (publishSubscriptions_spec [str ("alice 5")] [str ("alice")] [str ("srv")]
      [(str ("zed"), str ("old"))] (str ("alice"))).1 (by decide)
    rw [h]
    decide
  · refine ⟨by decide, ?_⟩
    have h := (publishSubscriptions_spec [str ("alice 5")] [str ("alice")] [str ("srv")]
      [(str ("zed"), str ("old"))] (str ("zed"))).2 (by decide)
    rw [h]
    decide

theorem splitStrGo_length_ge2 {sep : Line} (hsep : ¬ (sep = [])) :
    ∀ (fuel : Nat) (s acc : Line), s.length ≤ fuel → pyContains s sep = true →
    1 < (splitStrGo sep acc fuel s).length := by
  intro fuel
  induction fuel with
  | zero =>
    intro s acc hl hc
    have : s = [] := List.length_eq_zero.mp (Nat.le_zero.mp hl)
    subst this
    simp [pyContains, List.isEmpty_iff, hsep] at hc
  | succ n ih =>
    intro s acc hl hc
    cases s with
    | nil => simp [pyContains, List.isEmpty_iff, hsep] at hc
    | cons c rest =>
      simp only [splitStrGo]
      by_cases hp : sep.isPrefixOf (c :: rest)
      · rw [if_pos hp]
        rcases @splitStrGo_ne_nil sep n ((c :: rest).drop sep.length) [] with ⟨h, t, heq⟩
        rw [heq]
        simp
      · rw [if_neg hp]
        have hc2 : pyContains rest sep = true := by
          simp only [pyContains, Bool.or_eq_true] at hc
          rcases hc with h | h
          · exact absurd h (by simpa using hp)
          · exact h
        exact ih rest (c :: acc) (Nat.le_of_succ_le_succ (by simpa using hl)) hc2

theorem pySplitStr_length_ge2 {sep s : Line} (hsep : ¬ (sep = []))
    (h : pyContains s sep = true) : 1 < (pySplitStr sep s).length := by
  unfold pySplitStr
  rw [if_neg hsep]
  exact splitStrGo_length_ge2 hsep s.length s [] (Nat.le_refl _) h

/-- The time expression a `---es` directive passes to
`parse_relative_datetime`: the text after the token, cut at `#`, stripped. -/
def esTimePart (userLine : Line) : Line :=
  let parts := pySplitStr tokES userLine
  let timePart := parts.getD 1 []
  let timePart :=
    if pyContains timePart (str ("#")) then beforeFirst (str ("#")) timePart else timePart
  pyStrip timePart

/-- The rename target a `---r` directive extracts (empty when missing). -/
def rNewUsername (userLine : Line) : Line :=
  let commandPart := (pySplitStr tokR userLine).getD 1 []
  let commandPart :=
    if pyContains commandPart (str ("#")) then beforeFirst (str ("#")) commandPart
    else commandPart
  if pyStrip commandPart ≠ [] then headOr (pySplitWs (pyStrip commandPart)) [] else []

/-- C5 (amended): a set-expiry directive whose expression
`parse_relative_datetime` rejects, and a rename directive with a missing
target username, leave the persisted line entirely unchanged — the directive
token included — and do not disturb the other accumulated results or abort
the pass. -/
theorem processUserLine_malformed_unchanged :
    ∀ (diskUsers usersAll : List Line) (now : DT) (idx : Nat) (st : PState) (userLine : Line),
    pyContains userLine tokB = false → pyContains userLine tokUB = false →
    pyContains userLine tokD = false → pyContains userLine tokM = false →
    ((pyContains userLine tokR = false → pyContains userLine tokES = true →
      parseRelativeDatetime (esTimePart userLine) now = none →
      processUserLine diskUsers usersAll now idx st userLine =
        { st with updatedUsers := st.updatedUsers ++ [userLine],
                  usersToTop := addL (extractUsername userLine) st.usersToTop }) ∧
     (pyContains userLine tokR = true → rNewUsername userLine = [] →
      processUserLine diskUsers usersAll now idx st userLine =
        { st with updatedUsers := st.updatedUsers ++ [userLine] })) := by
  intro diskUsers usersAll now idx st userLine hb hub hd hm
  constructor
  · intro hr hes hparse
    simp only [processUserLine, hb, hub, hd, hm, hr, hes]
    simp only [Bool.false_eq_true, if_false, if_true]
    rw [if_pos (pySplitStr_length_ge2 (by decide) hes)]
    simp only [esTimePart] at hparse
    rw [hparse]
  · intro hr hnew
    simp only [processUserLine, hb, hub, hd, hm, hr]
    simp only [Bool.false_eq_true, if_false, if_true]
    simp only [rNewUsername] at hnew
    rw [if_neg (by rw [hnew]; simp)]

/-- C5 counterexample to the claim as stated: the malformed set-expiry line
is kept verbatim, the directive token is *not* removed. -/
theorem processUserLine_malformed_counterexample :
    parseRelativeDatetime (esTimePart (str ("alice ---es 5 min"))) ⟨2024, 1, 1, 10, 0⟩ = none ∧
    (processUserLine [] [str ("alice ---es 5 min")] ⟨2024, 1, 1, 10, 0⟩ 0
      ⟨[], [], [], [], [], [], [], []⟩ (str ("alice ---es 5 min"))).updatedUsers =
      [str ("alice ---es 5 min")] ∧
    pyContains (str ("alice ---es 5 min")) tokES = true ∧
    ¬ ((processUserLine [] [str ("alice ---es 5 min")] ⟨2024, 1, 1, 10, 0⟩ 0
      ⟨[], [], [], [], [], [], [], []⟩ (str ("alice ---es 5 min"))).updatedUsers =
      [str ("alice")]) := by decide

theorem processUserLine_malformed_witness :
    pyContains (str ("alice ---es 5 min")) tokB = false ∧
    parseRelativeDatetime (esTimePart (str ("alice ---es 5 min"))) ⟨2024, 1, 1, 10, 0⟩ = none ∧
    processUserLine [] [str ("alice ---es 5 min")] ⟨2024, 1, 1, 10, 0⟩ 0
        ⟨[], [], [], [], [], [], [], []⟩ (str ("alice ---es 5 min")) =
      { (⟨[], [], [], [], [], [], [], []⟩ : PState) with
          updatedUsers := [str ("alice ---es 5 min")],
          usersToTop := addL (extractUsername (str ("alice ---es 5 min"))) [] } := by
  refine ⟨by decide, by decide, ?_⟩
  have h := ((processUserLine_malformed_unchanged [] [str ("alice ---es 5 min")]
    ⟨2024, 1, 1, 10, 0⟩ 0 ⟨[], [], [], [], [], [], [], []⟩ (str ("alice ---es 5 min"))
    (by decide) (by decide) (by decide) (by decide)).1 (by decide) (by decide) (by decide))
  rw [h]
  rfl

/-- Usernames of the blocked-marked lines of a registry, extracted exactly
as the blocked-file rebuild does. -/
def markedNames (finalUsers : List Line) : List Line :=
  (finalUsers.filter (fun l => pyStartsWith l blockedSymStr)).map
    (fun l => extractUsername (lstripWs (lstripChar blockedSym l)))

theorem adictLookup_mem {α : Type} {u : Line} {v : α} : ∀ {d : List (Line × α)},
    adictLookup u d = some v → (u, v) ∈ d := by
  intro d
  induction d with
  | nil => intro h; simp [adictLookup] at h
  | cons kv rest ih =>
    intro h
    by_cases hk : kv.1 = u
    · rw [adictLookup, if_pos hk] at h
      have h2 : kv.2 = v := Option.some.inj h
      have he : (u, v) = kv := by
        rw [Prod.ext_iff]
        exact ⟨hk.symm, h2.symm⟩
      rw [he]
      simp
    · rw [adictLookup, if_neg hk] at h
      exact List.mem_cons_of_mem kv (ih h)

theorem adictLookup_mem_keys {α : Type} {u : Line} {v : α} {d : List (Line × α)}
    (h : adictLookup u d = some v) : u ∈ d.map Prod.fst := by
  have := adictLookup_mem h
  exact List.mem_map_of_mem Prod.fst this

theorem adictInsert_mem {α : Type} {k : Line} {v : α} {kv : Line × α} : ∀ {d : List (Line × α)},
    kv ∈ adictInsert k v d → kv = (k, v) ∨ kv ∈ d := by
  intro d
  induction d with
  | nil => intro h; simp [adictInsert] at h; exact Or.inl h
  | cons kv' rest ih =>
    intro h
    by_cases hk : kv'.1 = k
    · rw [adictInsert, if_pos hk] at h
      rcases List.mem_cons.mp h with h2 | h2
      · exact Or.inl h2
      · exact Or.inr (List.mem_cons_of_mem kv' h2)
    · rw [adictInsert, if_neg hk] at h
      rcases List.mem_cons.mp h with h2 | h2
      · exact Or.inr (by rw [h2]; simp)
      · rcases ih h2 with h3 | h3
        · exact Or.inl h3
        · exact Or.inr (List.mem_cons_of_mem kv' h3)

theorem adictInsert_keys {α : Type} {k : Line} {v : α} {u : Line} : ∀ {d : List (Line × α)},
    u ∈ (adictInsert k v d).map Prod.fst ↔ u = k ∨ u ∈ d.map Prod.fst := by
  intro d
  induction d with
  | nil => simp [adictInsert]
  | cons kv rest ih =>
    by_cases hk : kv.1 = k
    · rw [adictInsert, if_pos hk]
      simp only [List.map_cons, List.mem_cons, hk]
      tauto
    · rw [adictInsert, if_neg hk]
      simp only [List.map_cons, List.mem_cons, ih]
      tauto

theorem adictInsert_keys_nodup {α : Type} {k : Line} {v : α} : ∀ {d : List (Line × α)},
    (d.map Prod.fst).Nodup → ((adictInsert k v d).map Prod.fst).Nodup := by
  intro d
  induction d with
  | nil => intro h; simp [adictInsert]
  | cons kv rest ih =>
    intro h
    rw [List.map_cons, List.nodup_cons] at h
    by_cases hk : kv.1 = k
    · rw [adictInsert, if_pos hk]
      rw [List.map_cons, List.nodup_cons]
      exact ⟨by rw [← hk] at *; exact h.1, h.2⟩
    · rw [adictInsert, if_neg hk]
      rw [List.map_cons, List.nodup_cons]
      constructor
      · rw [adictInsert_keys]
        intro hcon
        rcases hcon with h2 | h2
        · exact hk (by simpa using h2)
        · exact h.1 h2
      · exact ih h.2

theorem adictRemoveKey_mem {α : Type} {k : Line} {kv : Line × α} : ∀ {d : List (Line × α)},
    kv ∈ adictRemoveKey k d → kv ∈ d := by
  intro d
  induction d with
  | nil => intro h; simp [adictRemoveKey] at h
  | cons kv' rest ih =>
    intro h
    by_cases hk : kv'.1 = k
    · rw [adictRemoveKey, if_pos hk] at h
      exact List.mem_cons_of_mem kv' h
    · rw [adictRemoveKey, if_neg hk] at h
      rcases List.mem_cons.mp h with h2 | h2
      · rw [h2]; simp
      · exact List.mem_cons_of_mem kv' (ih h2)

theorem adictRemoveKey_keys_sublist {α : Type} {k : Line} : ∀ {d : List (Line × α)},
    List.Sublist ((adictRemoveKey k d).map Prod.fst) (d.map Prod.fst) := by
  intro d
  induction d with
  | nil => simp [adictRemoveKey]
  | cons kv rest ih =>
    by_cases hk : kv.1 = k
    · rw [adictRemoveKey, if_pos hk, List.map_cons]
      exact List.sublist_cons_of_sublist kv.1 (List.Sublist.refl _)
    · rw [adictRemoveKey, if_neg hk, List.map_cons, List.map_cons]
      exact List.Sublist.cons₂ kv.1 ih

theorem adictRemoveKey_keys {α : Type} {k u : Line} : ∀ {d : List (Line × α)},
    (d.map Prod.fst).Nodup →
    (u ∈ (adictRemoveKey k d).map Prod.fst ↔ u ∈ d.map Prod.fst ∧ ¬ (u = k)) := by
  intro d
  induction d with
  | nil => intro h; simp [adictRemoveKey]
  | cons kv rest ih =>
    intro h
    rw [List.map_cons, List.nodup_cons] at h
    by_cases hk : kv.1 = k
    · rw [adictRemoveKey, if_pos hk]
      simp only [List.map_cons, List.mem_cons]
      constructor
      · intro hm
        refine ⟨Or.inr hm, ?_⟩
        intro he
        rw [he, ← hk] at hm
        exact h.1 hm
      · intro hm
        rcases hm.1 with h2 | h2
        · exact absurd (h2.trans hk) hm.2
        · exact h2
    · rw [adictRemoveKey, if_neg hk]
      simp only [List.map_cons, List.mem_cons, ih h.2]
      constructor
      · intro hm
        rcases hm with h2 | h2
        · exact ⟨Or.inl h2, by rw [h2]; exact fun he => hk he⟩
        · exact ⟨Or.inr h2.1, h2.2⟩
      · intro hm
        rcases hm.1 with h2 | h2
        · exact Or.inl h2
        · exact Or.inr ⟨h2, hm.2⟩

theorem buildBlockedDict_inv : ∀ (L : List Line) (acc : List (Line × Line)),
    (∀ kv ∈ acc, kv.1 = extractUsername kv.2) →
    ∀ kv ∈ L.foldl
      (fun d l =>
        if pyStartsWith l blockedSymStr then
          let entry := lstripWs (lstripChar blockedSym l)
          adictInsert (extractUsername entry) entry d
        else d) acc, kv.1 = extractUsername kv.2 := by
  intro L
  induction L with
  | nil => intro acc h; simpa using h
  | cons l rest ih =>
    intro acc h
    rw [List.foldl_cons]
    by_cases hl : pyStartsWith l blockedSymStr = true
    · rw [if_pos hl]
      refine ih _ ?_
      intro kv hkv
      rcases adictInsert_mem hkv with h2 | h2
      · rw [h2]
      · exact h kv h2
    · rw [if_neg hl]
      exact ih acc h

theorem buildBlockedDict_keys {u : Line} : ∀ (L : List Line) (acc : List (Line × Line)),
    (u ∈ (L.foldl
      (fun d l =>
        if pyStartsWith l blockedSymStr then
          let entry := lstripWs (lstripChar blockedSym l)
          adictInsert (extractUsername entry) entry d
        else d) acc).map Prod.fst ↔ u ∈ acc.map Prod.fst ∨ u ∈ markedNames L) := by
  intro L
  induction L with
  | nil => intro acc; simp [markedNames]
  | cons l rest ih =>
    intro acc
    rw [List.foldl_cons]
    by_cases hl : pyStartsWith l blockedSymStr = true
    · rw [if_pos hl]
      rw [ih]
      have hm : markedNames (l :: rest) =
          extractUsername (lstripWs (lstripChar blockedSym l)) :: markedNames rest := by
        unfold markedNames
        rw [List.filter_cons, if_pos (by simpa using hl)]
        simp
      rw [hm]
      simp only [adictInsert_keys, List.mem_cons]
      tauto
    · rw [if_neg hl]
      rw [ih]
      have hm : markedNames (l :: rest) = markedNames rest := by
        unfold markedNames
        rw [List.filter_cons, if_neg (by simpa using hl)]
      rw [hm]

theorem buildBlockedDict_nodup : ∀ (L : List Line) (acc : List (Line × Line)),
    (acc.map Prod.fst).Nodup →
    ((L.foldl
      (fun d l =>
        if pyStartsWith l blockedSymStr then
          let entry := lstripWs (lstripChar blockedSym l)
          adictInsert (extractUsername entry) entry d
        else d) acc).map Prod.fst).Nodup := by
  intro L
  induction L with
  | nil => intro acc h; simpa using h
  | cons l rest ih =>
    intro acc h
    rw [List.foldl_cons]
    by_cases hl : pyStartsWith l blockedSymStr = true
    · rw [if_pos hl]
      exact ih _ (adictInsert_keys_nodup h)
    · rw [if_neg hl]
      exact ih acc h

theorem pullBlocked_names {u : Line} : ∀ (bs : List Line) (out : List Line) (d : List (Line × Line)),
    (∀ kv ∈ d, kv.1 = extractUsername kv.2) →
    (d.map Prod.fst).Nodup →
    ((u ∈ (bs.foldl
        (fun (p : List Line × List (Line × Line)) u =>
          match adictLookup u p.2 with
          | some e => (p.1 ++ [e], adictRemoveKey u p.2)
          | none => p) (out, d)).1.map extractUsername ∨
      u ∈ (bs.foldl
        (fun (p : List Line × List (Line × Line)) u =>
          match adictLookup u p.2 with
          | some e => (p.1 ++ [e], adictRemoveKey u p.2)
          | none => p) (out, d)).2.map Prod.fst) ↔
     (u ∈ out.map extractUsername ∨ u ∈ d.map Prod.fst)) := by
  intro bs
  induction bs with
  | nil => intro out d hinv hnd; simp
  | cons b rest ih =>
    intro out d hinv hnd
    rw [List.foldl_cons]
    cases hl : adictLookup b d with
    | none =>
      simp only [hl]
      exact ih out d hinv hnd
    | some e =>
      simp only [hl]
      have hinv2 : ∀ kv ∈ adictRemoveKey b d, kv.1 = extractUsername kv.2 := by
        intro kv hkv
        exact hinv kv (adictRemoveKey_mem hkv)
      have hnd2 : ((adictRemoveKey b d).map Prod.fst).Nodup :=
        List.Sublist.nodup adictRemoveKey_keys_sublist hnd
      rw [ih (out ++ [e]) (adictRemoveKey b d) hinv2 hnd2]
      have heb : extractUsername e = b := by
        have := hinv (b, e) (adictLookup_mem hl)
        exact this.symm
      have hbd : b ∈ d.map Prod.fst := adictLookup_mem_keys hl
      simp only [List.map_append, List.map_cons, List.map_nil, List.mem_append,
        List.mem_singleton, heb, adictRemoveKey_keys hnd]
      constructor
      · intro h
        rcases h with (h | h) | h
        · exact Or.inl h
        · exact Or.inr (h ▸ hbd)
        · exact Or.inr h.1
      · intro h
        rcases h with h | h
        · exact Or.inl (Or.inl h)
        · by_cases hub : u = b
          · exact Or.inl (Or.inr hub)
          · exact Or.inr ⟨h, hub⟩

theorem pullBlocked_snd_mem {kv : Line × Line} : ∀ (bs : List Line) (out : List Line)
    (d : List (Line × Line)),
    kv ∈ (bs.foldl
        (fun (p : List Line × List (Line × Line)) u =>
          match adictLookup u p.2 with
          | some e => (p.1 ++ [e], adictRemoveKey u p.2)
          | none => p) (out, d)).2 → kv ∈ d := by
  intro bs
  induction bs with
  | nil => intro out d h; simpa using h
  | cons b rest ih =>
    intro out d h
    rw [List.foldl_cons] at h
    cases hl : adictLookup b d with
    | none =>
      rw [hl] at h
      exact ih out d h
    | some e =>
      rw [hl] at h
      exact adictRemoveKey_mem (ih (out ++ [e]) (adictRemoveKey b d) h)

theorem orderedBlockedOf_names {u : Line} (blockedU finalUsers : List Line) :
    u ∈ (orderedBlockedOf blockedU finalUsers).map extractUsername ↔
    u ∈ markedNames finalUsers := by
  have hinv : ∀ kv ∈ buildBlockedDict finalUsers, kv.1 = extractUsername kv.2 :=
    buildBlockedDict_inv finalUsers [] (by simp)
  have hnd : ((buildBlockedDict finalUsers).map Prod.fst).Nodup :=
    buildBlockedDict_nodup finalUsers [] (by simp)
  have hkeys : u ∈ (buildBlockedDict finalUsers).map Prod.fst ↔ u ∈ markedNames finalUsers := by
    rw [show (buildBlockedDict finalUsers) = buildBlockedDict finalUsers from rfl]
    unfold buildBlockedDict
    rw [buildBlockedDict_keys]
    simp
  have hinv2 : ∀ kv ∈ (pullBlocked blockedU (buildBlockedDict finalUsers)).2,
      kv.1 = extractUsername kv.2 := by
    intro kv hkv
    unfold pullBlocked at hkv
    exact hinv kv (pullBlocked_snd_mem blockedU [] _ hkv)
  have hsnd : (u ∈ ((pullBlocked blockedU (buildBlockedDict finalUsers)).2.map Prod.snd).map
      extractUsername) ↔
      u ∈ (pullBlocked blockedU (buildBlockedDict finalUsers)).2.map Prod.fst := by
    rw [List.map_map]
    constructor
    · intro h
      rcases List.mem_map.mp h with ⟨kv, hkv, he⟩
      refine List.mem_map.mpr ⟨kv, hkv, ?_⟩
      have he2 : extractUsername kv.2 = u := he
      rw [hinv2 kv hkv]
      exact he2
    · intro h
      rcases List.mem_map.mp h with ⟨kv, hkv, he⟩
      refine List.mem_map.mpr ⟨kv, hkv, ?_⟩
      show extractUsername kv.2 = u
      rw [← (hinv2 kv hkv)]
      exact he
  have hpull := pullBlocked_names (u := u) blockedU [] (buildBlockedDict finalUsers) hinv hnd
  simp only [orderedBlockedOf]
  rw [List.map_append, List.mem_append, hsnd]
  unfold pullBlocked
  rw [hpull]
  simpa using hkeys

/-- Modelled from the spec's words, for comparison with the code:
"(previous blocked set ∪ newly blocked) − (newly unblocked ∪ deleted)". -/
def specBlockedFormula (prevBlocked newlyBlocked newlyUnblocked deleted : List Line) : List Line :=
  (unionL prevBlocked newlyBlocked).filter
    (fun u => ¬ (newlyUnblocked.contains u ∨ deleted.contains u))

/-- C1 (amended): the blocked file persisted by `process_user_commands`
holds exactly the usernames of the blocked-marked lines of the final
registry; the previously persisted blocked file never enters the
computation (the `all_blocked` formula the source evaluates afterwards reads
the freshly written file and is persisted nowhere). -/
theorem processUserCommands_blockedFile_spec :
    ∀ (users0 : List Line) (now : DT) (prev : List Line) (subs0 : List (Line × Line)) (u : Line),
    (u ∈ (processUserCommands users0 now prev subs0).blockedFile.map extractUsername ↔
      u ∈ markedNames (processUserCommands users0 now prev subs0).finalUsers) ∧
    (∀ prev2 : List Line,
      (processUserCommands users0 now prev subs0).blockedFile =
        (processUserCommands users0 now prev2 subs0).blockedFile) := by
  intro users0 now prev subs0 u
  constructor
  · simp only [processUserCommands]
    exact orderedBlockedOf_names _ _
  · intro prev2
    simp only [processUserCommands]

/-- C1 counterexample to the claim as stated: with an empty registry and a
previously persisted blocked set containing `zed`, the spec formula keeps
`zed` but the pass persists an empty blocked file. -/
theorem processUserCommands_blockedFile_counterexample :
    (str ("zed")) ∈ specBlockedFormula
      (getBlockedUsers [str ("zed")])
      (processUserCommands [] ⟨2024, 1, 1, 10, 0⟩ [str ("zed")] []).blockedU
      (processUserCommands [] ⟨2024, 1, 1, 10, 0⟩ [str ("zed")] []).unblockedU
      (processUserCommands [] ⟨2024, 1, 1, 10, 0⟩ [str ("zed")] []).deletedU ∧
    (processUserCommands [] ⟨2024, 1, 1, 10, 0⟩ [str ("zed")] []).blockedFile = [] ∧
    ¬ ((str ("zed")) ∈
      (processUserCommands [] ⟨2024, 1, 1, 10, 0⟩ [str ("zed")] []).blockedFile.map
        extractUsername) := by decide

/-- C6: the registry `["bob", "a ---m bob", "b ---m bob"]` shows the
uniqueness invariant broken — `generate_unique_username` consults only the
stale on-disk list, so both creates receive `bob1`, and `move_user_to_top`
then keeps only the last `bob1` line: the final registry has two entries,
not the three distinctly-named ones the spec requires. -/
theorem processUserCommands_duplicate_usernames :
    (processUserCommands [str ("bob"), str ("a ---m bob"), str ("b ---m bob")]
        ⟨2024, 1, 1, 10, 0⟩ [] []).finalUsers = [str ("bob1"), str ("bob")] ∧
    (processUserCommands [str ("bob"), str ("a ---m bob"), str ("b ---m bob")]
        ⟨2024, 1, 1, 10, 0⟩ [] []).newU = [str ("bob1")] ∧
    (processUserCommands [str ("bob"), str ("a ---m bob"), str ("b ---m bob")]
        ⟨2024, 1, 1, 10, 0⟩ [] []).finalUsers.length = 2 ∧
    ¬ ((str ("bob2")) ∈
      (processUserCommands [str ("bob"), str ("a ---m bob"), str ("b ---m bob")]
        ⟨2024, 1, 1, 10, 0⟩ [] []).finalUsers.map extractUsername) := by decide

/-- C2: one fast pass over the registry `["alice ---b"]` on 2024-01-01
turns the line into the marker followed by `alice` and the dated block note,
puts `alice` into the persisted blocked set, and rewrites `alice`'s
subscription file with the encoded decoy list instead of the real server
list. -/
theorem fullPassFast_block_scenario :
    (fullPassFast [str ("alice ---b")] [] [] [str ("vless://u@h:443?a=1#X")]
        ⟨2024, 1, 1, 10, 0⟩).users =
      [blockedSymStr ++ str ("alice #| blocked 2024-01-01")] ∧
    (str ("alice")) ∈ getBlockedUsers
      (fullPassFast [str ("alice ---b")] [] [] [str ("vless://u@h:443?a=1#X")]
        ⟨2024, 1, 1, 10, 0⟩).blockedFile ∧
    adictLookup (str ("alice"))
      (fullPassFast [str ("alice ---b")] [] [] [str ("vless://u@h:443?a=1#X")]
        ⟨2024, 1, 1, 10, 0⟩).subs = some (encodeSubscription fakeServers) ∧
    ¬ (adictLookup (str ("alice"))
        (fullPassFast [str ("alice ---b")] [] [] [str ("vless://u@h:443?a=1#X")]
          ⟨2024, 1, 1, 10, 0⟩).subs =
      some (encodeSubscription [str ("vless://u@h:443?a=1#X")])) := by decide

theorem isDigit_digitChar {d : Nat} (h : d < 10) : isDigitChar (digitChar d) = true := by
  interval_cases d <;> decide

theorem charToDigit_digitChar {d : Nat} (h : d < 10) : charToDigit (digitChar d) = d := by
  interval_cases d <;> decide

/-- Calendar validity of the date fields alone. -/
def dateOk (t : DT) : Prop :=
  1 ≤ t.month ∧ t.month ≤ 12 ∧ 1 ≤ t.day ∧ t.day ≤ daysInMonth t.year t.month

theorem daysInMonth_pos (y m : Nat) : 1 ≤ daysInMonth y m := by
  unfold daysInMonth
  split_ifs <;> omega

theorem nextDay_dateOk {t : DT} (h : dateOk t) : dateOk (nextDay t) := by
  rcases h with ⟨h1, h2, h3, h4⟩
  have p1 := daysInMonth_pos t.year (t.month + 1)
  have p2 := daysInMonth_pos (t.year + 1) 1
  unfold nextDay dateOk
  split_ifs with hd hm <;> simp <;> omega

theorem addDays_dateOk {t : DT} (n : Nat) (h : dateOk t) : dateOk (addDays n t) := by
  induction n with
  | zero => exact h
  | succ k ih => exact nextDay_dateOk ih

theorem dateAfterHours_dateOk {t : DT} (n : Nat) (h : dateOk t) :
    dateOk (dateAfterHours n t) := addDays_dateOk _ h

theorem combineDT_dateOk {b : DT} {h mi : Nat} (hb : dateOk b) : dateOk (combineDT b h mi) := by
  simpa [dateOk, combineDT] using hb

theorem parseRelativeDatetime_valid {e : Line} {now t0 : DT} (hnow : dateOk now)
    (hp : parseRelativeDatetime e now = some t0) :
    dateOk t0 ∧ t0.hour ≤ 23 ∧ t0.minute ≤ 59 := by
  unfold parseRelativeDatetime at hp
  by_cases he : e = []
  · rw [if_pos he] at hp; cases hp
  rw [if_neg he] at hp
  simp only [] at hp
  split at hp
  · rename_i r hr
    -- pattern 0 matched its shape
    split at hr
    · rename_i hds rest hdt
      split at hr
      · rename_i htd
        split at hr
        · rename_i hrange
          split at hr
          · cases hr
            cases hp
            exact ⟨combineDT_dateOk (nextDay_dateOk hnow), hrange.1, hrange.2⟩
          · cases hr
            cases hp
            exact ⟨combineDT_dateOk hnow, hrange.1, hrange.2⟩
        · cases hr
          cases hp
      · cases hr
    · cases hr
  · -- unit patterns; uniform handling of the six match layers plus hours
    have hwt : ∀ (alts : List Line) (mult : Nat) (tparse : Line → Option (Nat × Nat)) (u : DT),
        (match matchAmountUnit alts (pyStrip e) with
         | some (amt, rest) =>
           match tparse rest with
           | some (h, mi) =>
             if h ≤ 23 ∧ mi ≤ 59 then some (combineDT (addDays (mult * amt) now) h mi)
             else none
           | none => none
         | none => none) = some u →
        dateOk u ∧ u.hour ≤ 23 ∧ u.minute ≤ 59 := by
      intro alts mult tparse u hw
      split at hw
      · rename_i amt rest hau
        split at hw
        · rename_i h mi ht
          split at hw
          · rename_i hrange
            cases hw
            exact ⟨combineDT_dateOk (addDays_dateOk _ hnow), hrange.1, hrange.2⟩
          · cases hw
        · cases hw
      · cases hw
    have hnt : ∀ (alts : List Line) (mult : Nat) (u : DT),
        (match matchAmountUnit alts (pyStrip e) with
         | some (amt, rest) =>
           if rest = [] then some (combineDT (addDays (mult * amt) now) 23 59) else none
         | none => none) = some u →
        dateOk u ∧ u.hour ≤ 23 ∧ u.minute ≤ 59 := by
      intro alts mult u hw
      split at hw
      · rename_i amt rest hau
        split at hw
        · cases hw
          exact ⟨combineDT_dateOk (addDays_dateOk _ hnow), by simp [combineDT], by simp [combineDT]⟩
        · cases hw
      · cases hw
    split at hp
    · rename_i r hr
      cases hp
      exact hwt altsDays 1 matchTime12 _ hr
    split at hp
    · rename_i r hr
      cases hp
      exact hnt altsDays 1 _ hr
    split at hp
    · rename_i r hr
      cases hp
      exact hwt altsWeeks 7 matchTime12 _ hr
    split at hp
    · rename_i r hr
      cases hp
      exact hnt altsWeeks 7 _ hr
    split at hp
    · rename_i r hr
      cases hp
      exact hwt altsMonths 30 matchTime2 _ hr
    split at hp
    · rename_i r hr
      cases hp
      exact hnt altsMonths 30 _ hr
    · -- hours pattern
      split at hp
      · rename_i amt rest hau
        split at hp
        · cases hp
          exact ⟨combineDT_dateOk (dateAfterHours_dateOk _ hnow), by simp [combineDT], by simp [combineDT]⟩
        · cases hp
      · cases hp

instance (t : DT) : Decidable (dateOk t) := by unfold dateOk; infer_instance

theorem isDigitChar_digitChar (d : Nat) : isDigitChar (digitChar d) = true := by
  by_cases h : d < 10
  · exact isDigit_digitChar h
  · unfold digitChar
    rw [List.getD_eq_default]
    · decide
    · simpa using Nat.not_lt.mp h

theorem daysInMonth_le31 (y m : Nat) : daysInMonth y m ≤ 31 := by
  unfold daysInMonth
  split_ifs <;> omega

theorem digitsToNat2 {n : Nat} (h : n < 100) :
    digitsToNat [digitChar (n / 10 % 10), digitChar (n % 10)] = n := by
  show (0 * 10 + charToDigit (digitChar (n / 10 % 10))) * 10 +
      charToDigit (digitChar (n % 10)) = n
  rw [charToDigit_digitChar (Nat.mod_lt _ (by decide)),
      charToDigit_digitChar (Nat.mod_lt _ (by decide))]
  omega

theorem digitsToNat4 {n : Nat} (h : n < 10000) :
    digitsToNat [digitChar (n / 1000 % 10), digitChar (n / 100 % 10),
      digitChar (n / 10 % 10), digitChar (n % 10)] = n := by
  show (((0 * 10 + charToDigit (digitChar (n / 1000 % 10))) * 10 +
      charToDigit (digitChar (n / 100 % 10))) * 10 +
      charToDigit (digitChar (n / 10 % 10))) * 10 +
      charToDigit (digitChar (n % 10)) = n
  rw [charToDigit_digitChar (Nat.mod_lt _ (by decide)),
      charToDigit_digitChar (Nat.mod_lt _ (by decide)),
      charToDigit_digitChar (Nat.mod_lt _ (by decide)),
      charToDigit_digitChar (Nat.mod_lt _ (by decide))]
  omega

theorem mem_pad2 {x : Char} {n : Nat} (h : x ∈ pad2 n) : isDigitChar x = true := by
  simp [pad2] at h
  rcases h with rfl | rfl <;> exact isDigitChar_digitChar _

theorem mem_pad4 {x : Char} {n : Nat} (h : x ∈ pad4 n) : isDigitChar x = true := by
  simp [pad4] at h
  rcases h with rfl | rfl | rfl | rfl <;> exact isDigitChar_digitChar _

theorem mem_fmtFull {x : Char} {t0 : DT} (h : x ∈ fmtFull t0) :
    isDigitChar x = true ∨ x = '-' ∨ x = ' ' ∨ x = ':' := by
  simp only [fmtFull, fmtDate, fmtHM, pad4, pad2, List.mem_append, List.mem_cons,
    List.mem_singleton, List.not_mem_nil, or_false, or_assoc] at h
  rcases h with rfl | rfl | rfl | rfl | rfl | rfl | rfl | rfl | rfl | rfl | rfl | rfl | rfl |
    rfl | rfl | rfl <;> simp [isDigitChar_digitChar]

theorem isPrefixOf_self_append (p s : Line) : p.isPrefixOf (p ++ s) = true := by
  induction p with
  | nil => simp [List.isPrefixOf]
  | cons a as ih => simp [List.isPrefixOf, ih]

theorem pyContains_of_isPrefixOf {s pat : Line} (h : pat.isPrefixOf s = true) :
    pyContains s pat = true := by
  cases s with
  | nil =>
    cases pat with
    | nil => rfl
    | cons a as => simp [List.isPrefixOf] at h
  | cons c rest => simp [pyContains, h]

theorem pyContains_append_right {u t pat : Line} (h : pat.isPrefixOf t = true) :
    pyContains (u ++ t) pat = true := by
  induction u with
  | nil => exact pyContains_of_isPrefixOf h
  | cons a as ih => simp [pyContains, ih]

theorem pyContains_tail {s p : Line} {c : Char} (h : pyContains s (c :: p) = true) :
    pyContains s p = true := by
  induction s with
  | nil => simp [pyContains] at h
  | cons a rest ih =>
    rw [pyContains, Bool.or_eq_true] at h
    rcases h with h1 | h2
    · have hpre : p.isPrefixOf rest = true := by
        rw [List.isPrefixOf_iff_prefix] at h1
        obtain ⟨u, hu⟩ := h1
        rw [List.isPrefixOf_iff_prefix]
        exact ⟨u, by injection hu⟩
      simp [pyContains, pyContains_of_isPrefixOf hpre]
    · simp [pyContains, ih h2]

theorem pyContains_append_of_head_free {P T p : Line} {c : Char}
    (hc : ∀ x ∈ P, ¬ (x = c)) :
    pyContains (P ++ T) (c :: p) = pyContains T (c :: p) := by
  induction P with
  | nil => rfl
  | cons a as ih =>
    have ha : (c == a) = false := by
      simp only [beq_eq_false_iff_ne, ne_eq]
      intro h
      exact hc a (by simp) h.symm
    have hpre : (c :: p).isPrefixOf (a :: (as ++ T)) = false := by
      simp [List.isPrefixOf, ha]
    rw [List.cons_append, pyContains, hpre]
    simp only [Bool.false_or]
    exact ih (fun x hx => hc x (by simp [hx]))

theorem matchHourMin_suffix {s g rest : Line} (h : matchHourMin s = some (g, rest)) :
    ∃ u, s = u ++ rest := by
  unfold matchHourMin at h
  split at h
  · rename_i a b c d e r
    split at h
    · injection h with h'
      injection h' with h1 h2
      exact ⟨[a, b, c, d, e], by rw [← h2]; rfl⟩
    split at h
    · injection h with h'
      injection h' with h1 h2
      exact ⟨[a, b, c, d], by rw [← h2]; rfl⟩
    · cases h
  · rename_i a b c d
    split at h
    · injection h with h'
      injection h' with h1 h2
      exact ⟨[a, b, c, d], by rw [← h2]; simp⟩
    · cases h
  · cases h

theorem searchP2_cons (c : Char) (rest : Line) :
    searchP2 (c :: rest) = match matchP2At (c :: rest) with
      | some g => some g
      | none => searchP2 rest := rfl

theorem searchP1_cons (c : Char) (rest : Line) :
    searchP1 (c :: rest) = match matchP1At (c :: rest) with
      | some g => some g
      | none => searchP1 rest := rfl

theorem searchP2_some_contains {s : Line} {g : Line} (h : searchP2 s = some g) :
    pyContains s (str (" expires today")) = true := by
  induction s with
  | nil => cases h
  | cons c rest ih =>
    rw [searchP2_cons] at h
    split at h
    · rename_i g' hm2
      unfold matchP2At at hm2
      split at hm2
      · rename_i g2 rest2 hhm
        split at hm2
        · rename_i hpre
          obtain ⟨u, hu⟩ := matchHourMin_suffix hhm
          rw [hu]
          exact pyContains_append_right hpre
        · cases hm2
      · cases hm2
    · simp [pyContains, ih h]

theorem fullLine_not_today (t0 : DT) :
    pyContains (fmtFull t0 ++ str (" expires")) (str ("expires today")) = false := by
  have hfree : ∀ x ∈ fmtFull t0, ¬ (x = 'e') := by
    intro x hx he
    rcases mem_fmtFull hx with hd | rfl | rfl | rfl
    · rw [he] at hd; cases hd
    all_goals cases he
  have hstep : str ("expires today") = 'e' :: str ("xpires today") := rfl
  rw [hstep, pyContains_append_of_head_free hfree, ← hstep]
  decide

theorem matchP1At_fmt (t0 : DT) :
    matchP1At (fmtFull t0 ++ str (" expires")) = some (fmtFull t0) := by
  simp only [fmtFull, fmtDate, fmtHM, pad4, pad2, List.cons_append, List.nil_append,
    List.append_assoc]
  simp only [matchP1At]
  rw [if_pos (by simp only [isDigitChar_digitChar]; decide)]
  simp only [matchHourMin]
  rw [if_pos (by simp only [isDigitChar_digitChar]; decide)]
  rfl

theorem searchP1_fmt (t0 : DT) :
    searchP1 (fmtFull t0 ++ str (" expires")) = some (fmtFull t0) := by
  obtain ⟨c, rest, hcr⟩ : ∃ c rest, fmtFull t0 ++ str (" expires") = c :: rest :=
    ⟨_, _, rfl⟩
  rw [hcr, searchP1_cons, ← hcr, matchP1At_fmt]

set_option maxHeartbeats 1600000 in
theorem strptime_fmt (t0 : DT) (hy1 : 1 ≤ t0.year) (hy2 : t0.year ≤ 9999)
    (hok : dateOk t0) (hh : t0.hour ≤ 23) (hm : t0.minute ≤ 59) :
    strptimeYmdHM (fmtFull t0) = some t0 := by
  obtain ⟨ho1, ho2, ho3, ho4⟩ := hok
  have hd31 := daysInMonth_le31 t0.year t0.month
  simp only [fmtFull, fmtDate, fmtHM, pad4, pad2, List.cons_append, List.nil_append,
    List.append_assoc]
  simp only [strptimeYmdHM]
  rw [if_pos (by simp only [isDigitChar_digitChar]; decide)]
  simp only [isDigitChar_digitChar]
  rw [digitsToNat4 (by omega), digitsToNat2 (by omega), digitsToNat2 (by omega),
    digitsToNat2 (by omega), digitsToNat2 (by omega)]
  show (if 1 ≤ t0.year ∧ 1 ≤ t0.month ∧ t0.month ≤ 12 ∧ 1 ≤ t0.day ∧
      t0.day ≤ daysInMonth t0.year t0.month ∧ t0.hour ≤ 23 ∧ t0.minute ≤ 59 then
      some (⟨t0.year, t0.month, t0.day, t0.hour, t0.minute⟩ : DT) else none) = some t0
  rw [if_pos ⟨hy1, ho1, ho2, ho3, ho4, hh, hm⟩]


theorem check_full (t0 t : DT) (hy1 : 1 ≤ t0.year) (hy2 : t0.year ≤ 9999)
    (hok : dateOk t0) (hh : t0.hour ≤ 23) (hm : t0.minute ≤ 59) :
    checkExpiryDatetime (fmtFull t0 ++ str (" expires")) t
      = (dtLE t0 t, if dtLE t0 t then some t0 else none) := by
  have hs1 := searchP1_fmt t0
  have hct := fullLine_not_today t0
  have hst := strptime_fmt t0 hy1 hy2 hok hh hm
  have hs2 : searchP2 (fmtFull t0 ++ str (" expires")) = none := by
    cases hsp : searchP2 (fmtFull t0 ++ str (" expires")) with
    | none => rfl
    | some g =>
      have h1 := searchP2_some_contains hsp
      rw [show str (" expires today") = ' ' :: str ("expires today") from rfl] at h1
      have h2 := pyContains_tail h1
      rw [hct] at h2
      cases h2
  unfold checkExpiryDatetime
  rw [hs1, hs2]
  simp only [hct, hst]
  cases hle : dtLE t0 t <;> simp [hle]

set_option maxRecDepth 40000 in
theorem todayFacts : ∀ (h : Fin 24) (mi : Fin 60),
    searchP1 (pad2 (h : Nat) ++ [ ':' ] ++ pad2 (mi : Nat) ++ str (" expires today")) = none ∧
    searchP2 (pad2 (h : Nat) ++ [ ':' ] ++ pad2 (mi : Nat) ++ str (" expires today"))
      = some (pad2 (h : Nat) ++ [ ':' ] ++ pad2 (mi : Nat)) ∧
    pyContains (pad2 (h : Nat) ++ [ ':' ] ++ pad2 (mi : Nat) ++ str (" expires today"))
      (str ("expires today")) = true ∧
    pySplitChar ':' (pad2 (h : Nat) ++ [ ':' ] ++ pad2 (mi : Nat)) = [pad2 (h : Nat), pad2 (mi : Nat)] ∧
    pyInt (pad2 (h : Nat)) = some ((h : Nat) : Int) ∧
    pyInt (pad2 (mi : Nat)) = some ((mi : Nat) : Int) := by decide

theorem check_today (t0 t : DT) (hh : t0.hour ≤ 23) (hm : t0.minute ≤ 59)
    (hd : dtDate t = dtDate t0) :
    checkExpiryDatetime (fmtHM t0 ++ str (" expires today")) t
      = (dtLE t0 t, if dtLE t0 t then some t0 else none) := by
  obtain ⟨h1, h2, h3, h4, h5, h6⟩ := todayFacts ⟨t0.hour, by omega⟩ ⟨t0.minute, by omega⟩
  have h1' : searchP1 (pad2 t0.hour ++ [ ':' ] ++ pad2 t0.minute ++ str (" expires today"))
      = none := h1
  have h2' : searchP2 (pad2 t0.hour ++ [ ':' ] ++ pad2 t0.minute ++ str (" expires today"))
      = some (pad2 t0.hour ++ [ ':' ] ++ pad2 t0.minute) := h2
  have h3' : pyContains (pad2 t0.hour ++ [ ':' ] ++ pad2 t0.minute ++ str (" expires today"))
      (str ("expires today")) = true := h3
  have h4' : pySplitChar ':' (pad2 t0.hour ++ [ ':' ] ++ pad2 t0.minute)
      = [pad2 t0.hour, pad2 t0.minute] := h4
  have h5' : pyInt (pad2 t0.hour) = some (t0.hour : Int) := h5
  have h6' : pyInt (pad2 t0.minute) = some (t0.minute : Int) := h6
  have hcomb : combineDT t t0.hour t0.minute = t0 := by
    cases t0 with
    | mk y m d hh0 mi0 =>
      cases t with
      | mk y2 m2 d2 h2v mi2 =>
        simp only [dtDate, Prod.mk.injEq] at hd
        obtain ⟨e1, e2, e3⟩ := hd
        simp [combineDT, e1, e2, e3]
  show checkExpiryDatetime
      (pad2 t0.hour ++ [ ':' ] ++ pad2 t0.minute ++ str (" expires today")) t = _
  unfold checkExpiryDatetime
  rw [h1', h2']
  simp only [h3', if_true]
  rw [h4']
  simp only []
  rw [h5', h6']
  simp only [Int.toNat_natCast]
  rw [if_pos (by omega)]
  rw [hcomb]
  cases hle : dtLE t0 t <;> simp [hle]

/-- Claim C3 (corrected): round trip between `parse_relative_datetime`,
`format_expiry_datetime` and `check_expiry_datetime`.  For any expression `e`
accepted at time `now` as `t0` (with `now` a valid calendar date and `t0`
inside the `datetime` year range), the formatted note is parsed back by
`check_expiry_datetime` at evaluation time `t` and reports expired exactly
when `t0 <= t`, returning the parsed timestamp exactly in the expired case -
PROVIDED that whenever the absolute-date guard fails (`t0` falls on the same
date as `now`, so the `"HH:MM expires today"` form is emitted), the
evaluation time `t` still lies on that same date.  The original claim,
quantified over every evaluation time `t`, is refuted by
`checkExpiry_roundTrip_counterexample`: the `"expires today"` form re-anchors
the stored wall-clock time to the *evaluation* date, so a target that is
already in the past reads as not expired on any later date. -/
theorem checkExpiry_roundTrip (e : Line) (now t0 t : DT) (hnow : dateOk now)
    (hp : parseRelativeDatetime e now = some t0)
    (hy1 : 1 ≤ t0.year) (hy2 : t0.year ≤ 9999)
    (hdate : sameDate t0 now = true → dtDate t = dtDate t0) :
    checkExpiryDatetime (formatExpiryDatetime t0 now) t
      = (dtLE t0 t, if dtLE t0 t then some t0 else none) := by
  obtain ⟨hok, hh, hm⟩ := parseRelativeDatetime_valid hnow hp
  unfold formatExpiryDatetime
  cases hsd : sameDate t0 now with
  | false =>
    rw [if_neg (by simp [hsd])]
    exact check_full t0 t hy1 hy2 hok hh hm
  | true =>
    rw [if_pos rfl]
    exact check_today t0 t hh hm (hdate hsd)

/-- Witness for `checkExpiry_roundTrip`: the expression `"2 days 14:30"`
parsed on 2024-01-01 10:00 yields 2024-01-03 14:30, is formatted in the
absolute form, and is read back as expired on 2024-01-05 00:00 with the
original timestamp recovered. -/
theorem checkExpiry_roundTrip_witness :
    checkExpiryDatetime
        (formatExpiryDatetime ⟨2024, 1, 3, 14, 30⟩ ⟨2024, 1, 1, 10, 0⟩)
        ⟨2024, 1, 5, 0, 0⟩
      = (true, some ⟨2024, 1, 3, 14, 30⟩) := by
  have h := checkExpiry_roundTrip (str ("2 days 14:30")) ⟨2024, 1, 1, 10, 0⟩
    ⟨2024, 1, 3, 14, 30⟩ ⟨2024, 1, 5, 0, 0⟩ (by decide) (by decide) (by decide) (by decide)
    (fun hsd => absurd hsd (by decide))
  exact h.trans (by decide)

/-- Counterexample to the literal claim C3: the expression `"23:00"` parsed
on 2024-01-01 10:00 yields the target 2024-01-01 23:00, which is formatted
as `"23:00 expires today"`; at evaluation time 2024-01-02 10:00 the target
is already in the past, yet `check_expiry_datetime` re-reads the note
relative to the evaluation date and reports not expired. -/
theorem checkExpiry_roundTrip_counterexample :
    parseRelativeDatetime (str ("23:00")) ⟨2024, 1, 1, 10, 0⟩ = some ⟨2024, 1, 1, 23, 0⟩ ∧
    dtLE ⟨2024, 1, 1, 23, 0⟩ ⟨2024, 1, 2, 10, 0⟩ = true ∧
    (checkExpiryDatetime
        (formatExpiryDatetime ⟨2024, 1, 1, 23, 0⟩ ⟨2024, 1, 1, 10, 0⟩)
        ⟨2024, 1, 2, 10, 0⟩).1 = false := by decide
